import Mathlib

/-!
Verification development for the DP-1 data-integrity and referential-storage
core: the Go validator's JSON canonicalizer and capsule hash verifier
(src/prototype/validator/playlist/playlist.go,
src/prototype/validator/validator/sha256.go) and the TypeScript storage layer
(src/prototype/server/storage.ts), shallowly embedded in Lean.
-/

namespace DP1

/-! ## Generic string helpers -/

/-- Boolean list-prefix test on character lists, used to embed the string
`startsWith` operations of the source. -/
def listPre : List Char → List Char → Bool
  | [], _ => true
  | _ :: _, [] => false
  | a :: as, b :: bs => a == b && listPre as bs

/-- Embedding of `key.startsWith(pre)` on strings. -/
def startsWithStr (s p : String) : Bool := listPre p.data s.data

theorem listPre_iff (p : List Char) : ∀ s, listPre p s = true ↔ ∃ t, s = p ++ t := by
  induction p with
  | nil => intro s; simp [listPre]
  | cons a as ih =>
    intro s
    cases s with
    | nil => simp [listPre]
    | cons b bs =>
      simp only [listPre, Bool.and_eq_true, beq_iff_eq, ih]
      constructor
      · rintro ⟨rfl, t, rfl⟩; exact ⟨t, rfl⟩
      · rintro ⟨t, h⟩
        cases h
        exact ⟨rfl, t, rfl⟩

theorem startsWithStr_iff (s p : String) :
    startsWithStr s p = true ↔ ∃ t : List Char, s.data = p.data ++ t := by
  simp [startsWithStr, listPre_iff]

theorem startsWithStr_append (p t : String) : startsWithStr (p ++ t) p = true := by
  rw [startsWithStr_iff]
  exact ⟨t.data, String.data_append p t⟩

/-- A prefix test with a longer pattern implies the test with any leading
portion of that pattern. -/
theorem startsWithStr_weaken (s p q : String) (h : startsWithStr s (p ++ q) = true) :
    startsWithStr s p = true := by
  rw [startsWithStr_iff] at h ⊢
  obtain ⟨t, ht⟩ := h
  rw [String.data_append] at ht
  exact ⟨q.data ++ t, by simpa using ht⟩

/-- Split a string at every occurrence of a separator character; embeds the
JS `"sd".split(',')` and `key.split(':')` operations (and keeps the empty
piece for an empty input, as those do). -/
def splitOnCharAux (sep : Char) : List Char → List Char → List String
  | [], acc => [String.mk acc.reverse]
  | c :: rest, acc =>
    if c = sep then String.mk acc.reverse :: splitOnCharAux sep rest []
    else splitOnCharAux sep rest (c :: acc)

/-- Split a string on a one-character separator. -/
def splitOnChar (s : String) (sep : Char) : List String :=
  splitOnCharAux sep s.data []

/-- Embedding of JS `String.prototype.trim` on the configured domain list:
strip leading and trailing whitespace. -/
def trimStr (s : String) : String :=
  String.mk (((s.data.dropWhile Char.isWhitespace).reverse.dropWhile
    Char.isWhitespace).reverse)

/-- Drop the first `n` characters of a string. -/
def dropChars (s : String) (n : Nat) : String :=
  String.mk (s.data.drop n)

/-- Embedding of the case folding used by the hash comparison
(`strings.ToLower` on hex strings). -/
def toLowerStr (s : String) : String :=
  String.mk (s.data.map Char.toLower)

/-- Lexicographic comparison of character lists by code point.  On UTF-8 data
the byte-wise order used by Go `sort.Strings` coincides with this code-point
order. -/
def charListLe : List Char → List Char → Bool
  | [], _ => true
  | _ :: _, [] => false
  | a :: as, b :: bs => if a < b then true else if b < a then false else charListLe as bs

/-- Ascending (lexicographic) order on strings, the order of Go
`sort.Strings`. -/
def strle (a b : String) : Prop := charListLe a.data b.data = true

instance : DecidableRel strle := fun _ _ => inferInstanceAs (Decidable (_ = true))

theorem charListLe_total : ∀ a b : List Char, charListLe a b = true ∨ charListLe b a = true := by
  intro a
  induction a with
  | nil => intro b; left; rfl
  | cons x xs ih =>
    intro b
    cases b with
    | nil => right; rfl
    | cons y ys =>
      rcases lt_trichotomy x y with h | h | h
      · left; simp [charListLe, h]
      · subst h
        rcases ih ys with h' | h' <;> simp [charListLe, h', lt_irrefl]
      · right; simp [charListLe, h]

theorem charListLe_trans :
    ∀ a b c : List Char, charListLe a b = true → charListLe b c = true →
      charListLe a c = true := by
  intro a
  induction a with
  | nil => intro b c _ _; rfl
  | cons x xs ih =>
    intro b c hab hbc
    cases b with
    | nil => simp [charListLe] at hab
    | cons y ys =>
      cases c with
      | nil => simp [charListLe] at hbc
      | cons z zs =>
        simp only [charListLe] at hab hbc ⊢
        rcases lt_trichotomy x y with hxy | hxy | hxy
        · rcases lt_trichotomy y z with hyz | hyz | hyz
          · simp [lt_trans hxy hyz]
          · subst hyz; simp [hxy]
          · simp [hyz, not_lt_of_gt hyz] at hbc
        · subst hxy
          rcases lt_trichotomy x z with hyz | hyz | hyz
          · simp [hyz]
          · subst hyz
            simp only [lt_irrefl, if_false] at hab hbc ⊢
            exact ih ys zs hab hbc
          · simp [not_lt_of_gt hyz, hyz] at hbc
        · simp [not_lt_of_gt hxy, hxy] at hab

theorem charListLe_antisymm :
    ∀ a b : List Char, charListLe a b = true → charListLe b a = true → a = b := by
  intro a
  induction a with
  | nil =>
    intro b _ hba
    cases b with
    | nil => rfl
    | cons y ys => simp [charListLe] at hba
  | cons x xs ih =>
    intro b hab hba
    cases b with
    | nil => simp [charListLe] at hab
    | cons y ys =>
      simp only [charListLe] at hab hba
      rcases lt_trichotomy x y with h | h | h
      · simp [not_lt_of_gt h, h] at hba
      · subst h
        simp only [lt_irrefl, if_false] at hab hba
        rw [ih ys hab hba]
      · simp [not_lt_of_gt h, h] at hab

instance : IsTotal String strle := ⟨fun a b => charListLe_total a.data b.data⟩

instance : IsTrans String strle := ⟨fun a b c => charListLe_trans a.data b.data c.data⟩

instance : IsAntisymm String strle :=
  ⟨fun a b h h' => String.ext (charListLe_antisymm a.data b.data h h')⟩

/-- Sort a list of strings in ascending order; embeds Go `sort.Strings`. -/
def sortStrings (l : List String) : List String :=
  List.insertionSort strle l

theorem mem_sortStrings (l : List String) (a : String) : a ∈ sortStrings l ↔ a ∈ l := by
  simp [sortStrings]

theorem sorted_sortStrings (l : List String) :
    (sortStrings l).Sorted strle :=
  List.sorted_insertionSort _ l

/-! ## JSON values and the Go canonicalizer

Embedding of `canonicalizeJSON` from src/prototype/validator/playlist/playlist.go
(lines 148-196).  A JSON value as produced by Go `json.Unmarshal` into
`map[string]any` is modelled by the inductive `JSON`: objects are association
lists (a Go map cannot hold duplicate keys, so all statements are made for
lists with `Nodup` keys), arrays keep their order, and a number leaf carries
its `json.Marshal` serialization (Go marshals a `float64` deterministically;
none of the properties under study inspects the digits). -/

inductive JSON where
  | null : JSON
  | bool (b : Bool) : JSON
  | num (marshaled : String) : JSON
  | str (s : String) : JSON
  | arr (elems : List JSON) : JSON
  | obj (fields : List (String × JSON)) : JSON

/-- Lowercase hex digit, as used by Go `encoding/json` `\u00xx` escapes. -/
def hexDigitChar (n : Nat) : Char :=
  if n < 10 then Char.ofNat (48 + n) else Char.ofNat (87 + (n % 16))

/-- Escaping of one character following Go `encoding/json` (default HTML-safe
encoder): `"` and `\` are backslash-escaped, `\n`/`\r`/`\t` use their short
forms, other control characters use `\u00xx`, and `<`, `>`, `&`, U+2028 and
U+2029 are escaped as `\uXXXX`. -/
def goEscapeChar (c : Char) : String :=
  if c = '"' then "\\\""
  else if c = '\\' then "\\\\"
  else if c = '\n' then "\\n"
  else if c = '\r' then "\\r"
  else if c = '\t' then "\\t"
  else if c.toNat < 0x20 then
    "\\u00" ++ String.mk [hexDigitChar (c.toNat / 16), hexDigitChar (c.toNat % 16)]
  else if c = '<' then "\\u003c"
  else if c = '>' then "\\u003e"
  else if c = '&' then "\\u0026"
  else if c.toNat = 0x2028 then "\\u2028"
  else if c.toNat = 0x2029 then "\\u2029"
  else String.singleton c

/-- Embedding of `json.Marshal` on a Go string: a quoted, escaped JSON string. -/
def goQuote (s : String) : String :=
  "\"" ++ String.join (s.data.map goEscapeChar) ++ "\""

/-- Ordering of canonicalized object fields by key, as produced by
`sort.Strings(keys)` in `canonicalizeJSON`. -/
def keyle (a b : String × String) : Prop := strle a.1 b.1

instance : DecidableRel keyle := fun a b => inferInstanceAs (Decidable (strle a.1 b.1))

instance : IsTotal (String × String) keyle := ⟨fun a b => charListLe_total a.1.data b.1.data⟩

instance : IsTrans (String × String) keyle :=
  ⟨fun a b c h h' => charListLe_trans a.1.data b.1.data c.1.data h h'⟩

/-- Sort serialized object fields by key.  Go sorts the key slice with
`sort.Strings` and then serializes `v[k]` for each key in order; for the
duplicate-free key lists that represent a Go map this is the same as sorting
the (key, serialized value) pairs by key. -/
def sortFields (l : List (String × String)) : List (String × String) :=
  List.insertionSort keyle l

mutual

/-- Embedding of `canonicalizeJSON` (playlist.go lines 148-196): objects emit
`{`, the key-sorted comma-separated `"key":value` pairs, then `}`; arrays keep
their order; scalars are marshaled by `json.Marshal`.  No trailing byte is
appended after the closing delimiter. -/
def canonicalizeJSON : JSON → String
  | .null => "null"
  | .bool b => if b then "true" else "false"
  | .num m => m
  | .str s => goQuote s
  | .arr xs => "[" ++ String.intercalate "," (canonElems xs) ++ "]"
  | .obj fs =>
      "\x7b" ++
        String.intercalate ","
          ((sortFields (canonFields fs)).map (fun e => goQuote e.1 ++ ":" ++ e.2)) ++
      "\x7d"

/-- Canonicalize each array element in order. -/
def canonElems : List JSON → List String
  | [] => []
  | x :: xs => canonicalizeJSON x :: canonElems xs

/-- Canonicalize the value of each object field, keeping the key. -/
def canonFields : List (String × JSON) → List (String × String)
  | [] => []
  | (k, v) :: fs => (k, canonicalizeJSON v) :: canonFields fs

end

/-! ## UTF-16 code-unit ordering (the ordering required by the spec / JCS) -/

/-- UTF-16 code units of a string: characters below U+10000 map to a single
unit, supplementary-plane characters map to a surrogate pair. -/
def utf16Units (s : String) : List Nat :=
  (s.data.map (fun c =>
    if c.toNat < 0x10000 then [c.toNat]
    else [0xD800 + (c.toNat - 0x10000) / 0x400, 0xDC00 + (c.toNat - 0x10000) % 0x400])).flatten

/-- Lexicographic comparison of natural-number lists. -/
def natListLe : List Nat → List Nat → Bool
  | [], _ => true
  | _ :: _, [] => false
  | a :: as, b :: bs => if a < b then true else if b < a then false else natListLe as bs

/-- UTF-16 code-unit ordering of strings, the key ordering required by
RFC 8785 (JCS) and by the spec sentence under claim C3. -/
def utf16LeKey (a b : String) : Bool := natListLe (utf16Units a) (utf16Units b)

/-- Keys sorted by UTF-16 code-unit order (the spec-mandated order, stated for
comparison with the Go implementation's byte order). -/
def sortKeysUtf16 (l : List String) : List String :=
  List.insertionSort (fun a b => utf16LeKey a b = true) l

end DP1

namespace DP1

/-! ## Structural equality of JSON values up to object key order (claim C1) -/

/-- Two JSON values are structurally equal up to object key insertion order:
scalars are equal, arrays have the same length and pointwise-equivalent
elements in the same order, and objects have duplicate-free keys, the same key
set, and equivalent values at every common key. -/
inductive EquivJSON : JSON → JSON → Prop where
  | null : EquivJSON .null .null
  | bool (b : Bool) : EquivJSON (.bool b) (.bool b)
  | num (m : String) : EquivJSON (.num m) (.num m)
  | str (s : String) : EquivJSON (.str s) (.str s)
  | arr {xs ys : List JSON} : List.Forall₂ EquivJSON xs ys → EquivJSON (.arr xs) (.arr ys)
  | obj {fs gs : List (String × JSON)} :
      (fs.map Prod.fst).Nodup → (gs.map Prod.fst).Nodup →
      (∀ k, k ∈ fs.map Prod.fst ↔ k ∈ gs.map Prod.fst) →
      (∀ k v w, (k, v) ∈ fs → (k, w) ∈ gs → EquivJSON v w) →
      EquivJSON (.obj fs) (.obj gs)

end DP1

namespace DP1

theorem canonElems_eq_map (xs : List JSON) : canonElems xs = xs.map canonicalizeJSON := by
  induction xs with
  | nil => rfl
  | cons x xs ih => simp [canonElems, ih]

theorem canonFields_eq_map (fs : List (String × JSON)) :
    canonFields fs = fs.map (fun kv => (kv.1, canonicalizeJSON kv.2)) := by
  induction fs with
  | nil => rfl
  | cons kv fs ih => cases kv; simp [canonFields, ih]

/-- Two key-sorted field lists that are permutations of one another and have
duplicate-free keys are equal. -/
theorem eq_of_perm_sorted_keyNodup :
    ∀ {l₁ l₂ : List (String × String)}, List.Perm l₁ l₂ → l₁.Sorted keyle → l₂.Sorted keyle →
      (l₁.map Prod.fst).Nodup → l₁ = l₂ := by
  intro l₁
  induction l₁ with
  | nil =>
    intro l₂ hp _ _ _
    exact (hp.symm.eq_nil).symm
  | cons a l ih =>
    intro l₂ hp hs₁ hs₂ nd
    have ha : a ∈ l₂ := hp.mem_iff.mp (List.mem_cons_self a l)
    cases l₂ with
    | nil => exact absurd ha (List.not_mem_nil a)
    | cons b t =>
      have hab : a = b := by
        rcases List.mem_cons.mp ha with h | h
        · exact h
        · have hb : b ∈ a :: l := hp.symm.mem_iff.mp (List.mem_cons_self b t)
          rcases List.mem_cons.mp hb with h' | h'
          · exact h'.symm
          · have h1 : keyle a b := List.rel_of_sorted_cons hs₁ b h'
            have h2 : keyle b a := List.rel_of_sorted_cons hs₂ a h
            have hfst : a.1 = b.1 :=
              String.ext (charListLe_antisymm a.1.data b.1.data h1 h2)
            have hmem : a.1 ∈ l.map Prod.fst := List.mem_map.mpr ⟨b, h', hfst.symm⟩
            have hnd : a.1 ∉ l.map Prod.fst := by
              have := nd
              simp only [List.map_cons, List.nodup_cons] at this
              exact this.1
            exact absurd hmem hnd
      subst hab
      have hp' : List.Perm l t := hp.cons_inv
      have hnd' : (l.map Prod.fst).Nodup := by
        simp only [List.map_cons, List.nodup_cons] at nd
        exact nd.2
      rw [ih hp' hs₁.of_cons hs₂.of_cons hnd']

theorem sortFields_congr {l₁ l₂ : List (String × String)} (h : List.Perm l₁ l₂)
    (nd : (l₁.map Prod.fst).Nodup) : sortFields l₁ = sortFields l₂ := by
  apply eq_of_perm_sorted_keyNodup
  · exact (List.perm_insertionSort keyle l₁).trans (h.trans (List.perm_insertionSort keyle l₂).symm)
  · exact List.sorted_insertionSort keyle l₁
  · exact List.sorted_insertionSort keyle l₂
  · exact ((List.perm_insertionSort keyle l₁).map Prod.fst).nodup_iff.mpr nd

end DP1

namespace DP1

theorem sizeOf_lt_of_mem_arr {x : JSON} {xs : List JSON} (hx : x ∈ xs) :
    sizeOf x < sizeOf (JSON.arr xs) := by
  have h := List.sizeOf_lt_of_mem hx
  simp only [JSON.arr.sizeOf_spec]
  omega

theorem sizeOf_lt_of_mem_obj {k : String} {v : JSON} {fs : List (String × JSON)}
    (hv : (k, v) ∈ fs) : sizeOf v < sizeOf (JSON.obj fs) := by
  have h := List.sizeOf_lt_of_mem hv
  have h2 : sizeOf (k, v) = 1 + sizeOf k + sizeOf v := rfl
  simp only [JSON.obj.sizeOf_spec]
  omega

/-- Claim C1: canonicalization is deterministic.  Any two JSON values that are
structurally equal up to object key insertion order canonicalize to
byte-identical output. -/
theorem canonicalizeJSON_deterministic (a b : JSON) (h : EquivJSON a b) :
    canonicalizeJSON a = canonicalizeJSON b := by
  have key : ∀ n a b, sizeOf a < n → EquivJSON a b →
      canonicalizeJSON a = canonicalizeJSON b := by
    intro n
    induction n with
    | zero => intro a b hsz _; exact absurd hsz (Nat.not_lt_zero _)
    | succ n ih =>
      intro a b hsz h
      cases h with
      | null => rfl
      | bool _ => rfl
      | num _ => rfl
      | str _ => rfl
      | arr hf =>
        rename_i xs ys
        have hsub : ∀ x ∈ xs, sizeOf x < n := by
          intro x hx
          have := sizeOf_lt_of_mem_arr hx
          omega
        simp only [canonicalizeJSON]
        have : canonElems xs = canonElems ys := by
          clear hsz
          induction hf with
          | nil => rfl
          | cons hxy hrest ihf =>
            rename_i x y xs' ys'
            simp only [canonElems]
            rw [ih x y (hsub x (List.mem_cons_self x xs')) hxy]
            rw [ihf (fun z hz => hsub z (List.mem_cons_of_mem x hz))]
        rw [this]
      | obj nd₁ nd₂ hkeys hvals =>
        rename_i fs gs
        have hsub : ∀ k v, (k, v) ∈ fs → sizeOf v < n := by
          intro k v hv
          have := sizeOf_lt_of_mem_obj hv
          omega
        simp only [canonicalizeJSON]
        have hfields :
            sortFields (canonFields fs) = sortFields (canonFields gs) := by
          rw [canonFields_eq_map, canonFields_eq_map]
          have hndmap : ((fs.map fun kv => (kv.1, canonicalizeJSON kv.2)).map
              Prod.fst).Nodup := by
            have : (fs.map fun kv => (kv.1, canonicalizeJSON kv.2)).map Prod.fst
                = fs.map Prod.fst := by
              simp [List.map_map, Function.comp]
            rw [this]
            exact nd₁
          apply sortFields_congr _ hndmap
          have hndmap₂ : ((gs.map fun kv => (kv.1, canonicalizeJSON kv.2)).map
              Prod.fst).Nodup := by
            have : (gs.map fun kv => (kv.1, canonicalizeJSON kv.2)).map Prod.fst
                = gs.map Prod.fst := by
              simp [List.map_map, Function.comp]
            rw [this]
            exact nd₂
          rw [List.perm_ext_iff_of_nodup (hndmap.of_map _) (hndmap₂.of_map _)]
          intro e
          simp only [List.mem_map]
          constructor
          · rintro ⟨⟨k, v⟩, hkv, he⟩
            have hk : k ∈ gs.map Prod.fst :=
              (hkeys k).mp (List.mem_map.mpr ⟨(k, v), hkv, rfl⟩)
            obtain ⟨⟨k₂, w⟩, hkw, hfst⟩ := List.mem_map.mp hk
            simp only at hfst
            subst hfst
            refine ⟨(k₂, w), hkw, ?_⟩
            have hvw := hvals k₂ v w hkv hkw
            have heq := ih v w (hsub k₂ v hkv) hvw
            simp only at he ⊢
            rw [← he, heq]
          · rintro ⟨⟨k, w⟩, hkw, he⟩
            have hk : k ∈ fs.map Prod.fst :=
              (hkeys k).mpr (List.mem_map.mpr ⟨(k, w), hkw, rfl⟩)
            obtain ⟨⟨k₂, v⟩, hkv, hfst⟩ := List.mem_map.mp hk
            simp only at hfst
            subst hfst
            refine ⟨(k₂, v), hkv, ?_⟩
            have hvw := hvals k₂ v w hkv hkw
            have heq := ih v w (hsub k₂ v hkv) hvw
            simp only at he ⊢
            rw [← he, heq]
        rw [hfields]
  exact key (sizeOf a + 1) a b (Nat.lt_succ_self _) h

end DP1

namespace DP1

/-- Witness for claim C1 at a concrete input: two objects with the same fields
inserted in opposite orders canonicalize identically. -/
theorem canonicalizeJSON_deterministic_witness :
    EquivJSON
      (.obj [("b", .num "1"), ("a", .str "x")])
      (.obj [("a", .str "x"), ("b", .num "1")]) ∧
    canonicalizeJSON (.obj [("b", .num "1"), ("a", .str "x")]) =
      canonicalizeJSON (.obj [("a", .str "x"), ("b", .num "1")]) := by
  have hequiv : EquivJSON
      (.obj [("b", .num "1"), ("a", .str "x")])
      (.obj [("a", .str "x"), ("b", .num "1")]) := by
    apply EquivJSON.obj
    · decide
    · decide
    · intro k
      simp only [List.map_cons, List.map_nil, List.mem_cons, List.not_mem_nil, or_false]
      tauto
    · intro k v w hv hw
      simp only [List.mem_cons, List.not_mem_nil, or_false, Prod.mk.injEq] at hv hw
      rcases hv with ⟨hk, hv⟩ | ⟨hk, hv⟩ <;> rcases hw with ⟨hk', hw⟩ | ⟨hk', hw⟩ <;>
        subst_vars <;> first
        | exact EquivJSON.num "1"
        | exact EquivJSON.str "x"
        | simp_all
  exact ⟨hequiv, canonicalizeJSON_deterministic _ _ hequiv⟩

/-- Claim C2 evaluated on the code: `canonicalizeJSON` emits no trailing LF at
all (its output for an object ends with the closing brace and contains no LF
byte anywhere), contradicting the required single trailing LF. -/
theorem canonicalizeJSON_output_has_no_lf :
    canonicalizeJSON (.obj [("id", .str "x")]) = "\x7b\"id\":\"x\"\x7d" ∧
    (canonicalizeJSON (.obj [("id", .str "x")])).data.getLast? = some '\x7d' ∧
    (canonicalizeJSON (.obj [("id", .str "x")])).data.count '\n' = 0 := by
  refine ⟨by decide, by decide, by decide⟩

/-- Claim C3 evaluated on the code: for the keys U+FFFD and U+10000 the Go
canonicalizer emits U+FFFD first (code-point / UTF-8 byte order), while the
UTF-16 code-unit order required by the claim puts U+10000 first (its leading
surrogate 0xD800 is below 0xFFFD). -/
theorem canonicalizeJSON_key_order_not_utf16 :
    (sortFields (canonFields [(String.mk [Char.ofNat 0x10000], .num "2"),
        (String.mk [Char.ofNat 0xFFFD], .num "1")])).map Prod.fst =
      [String.mk [Char.ofNat 0xFFFD], String.mk [Char.ofNat 0x10000]] ∧
    sortKeysUtf16 [String.mk [Char.ofNat 0xFFFD], String.mk [Char.ofNat 0x10000]] =
      [String.mk [Char.ofNat 0x10000], String.mk [Char.ofNat 0xFFFD]] ∧
    ([String.mk [Char.ofNat 0xFFFD], String.mk [Char.ofNat 0x10000]] ≠
      [String.mk [Char.ofNat 0x10000], String.mk [Char.ofNat 0xFFFD]]) ∧
    canonicalizeJSON (.obj [(String.mk [Char.ofNat 0x10000], .num "2"),
        (String.mk [Char.ofNat 0xFFFD], .num "1")]) =
      "\x7b\"" ++ String.mk [Char.ofNat 0xFFFD] ++ "\":1,\"" ++
        String.mk [Char.ofNat 0x10000] ++ "\":2\x7d" := by
  refine ⟨by decide, by decide, by decide, by decide⟩

end DP1

namespace DP1

/-! ## Capsule hash verification

Embedding of `compareHashLists`, `VerifyDirectoryHashes` and the directory-scan
worker from src/prototype/validator/validator/sha256.go. -/

/-- Result of hashing one file (sha256.go `HashResult`). -/
structure HashResult where
  path : String
  sha256 : String
  size : Int
  isDir : Bool
  error : String
deriving DecidableEq, Repr

/-- The lowercased hash set built by `compareHashLists` (a Go
`map[string]bool` holds each lowercased hash once). -/
def lowerSet (l : List String) : List String :=
  (l.map toLowerStr).dedup

/-- Embedding of `compareHashLists` (sha256.go lines 231-264): build
case-insensitive sets from both lists, split into matched / missing / extra,
and sort each result with `sort.Strings`. -/
def compareHashLists (expected actual : List String) :
    List String × List String × List String :=
  let eSet := lowerSet expected
  let aSet := lowerSet actual
  let matched := sortStrings (eSet.filter (fun h => aSet.contains h))
  let missing := sortStrings (eSet.filter (fun h => !aSet.contains h))
  let extra := sortStrings (aSet.filter (fun h => !eSet.contains h))
  (matched, missing, extra)

/-- Result of directory verification (sha256.go `VerificationResult`). -/
structure VerificationResult where
  success : Bool
  totalFiles : Nat
  matchedHashes : Nat
  missingHashes : List String
  extraHashes : List String
  results : List HashResult
deriving DecidableEq, Repr

/-- Embedding of `VerifyDirectoryHashes` (sha256.go lines 197-228) after the
filesystem scan: the scan itself is the external collaborator, so the function
takes the `HashResult` list produced by `ComputeDirectoryHashes` and performs
the comparison and success computation of the source. -/
def verifyDirectoryHashes (expectedHashes : List String) (results : List HashResult) :
    VerificationResult :=
  let computedHashes := (results.filter (fun r => r.error == "" && r.sha256 != "")).map
    (fun r => r.sha256)
  let c := compareHashLists expectedHashes computedHashes
  let success := c.2.1.length == 0 && c.2.2.length == 0
  { success := success
    totalFiles := results.length
    matchedHashes := c.1.length
    missingHashes := c.2.1
    extraHashes := c.2.2
    results := results }

/-- Abstraction of Go `os.FileInfo`: only `Size()` is consulted by the worker.
A `FileJob` whose walk callback received an error carries `info = none`,
modelling the nil interface stored at sha256.go lines 62-67. -/
structure GoFileInfo where
  size : Int
deriving DecidableEq, Repr

/-- A queued file job (sha256.go `FileJob`). -/
structure FileJob where
  path : String
  relPath : String
  info : Option GoFileInfo
deriving DecidableEq, Repr

/-- Evaluation of `job.Info.Size()` (sha256.go line 156): calling `Size` on a
nil `os.FileInfo` interface value is a nil-pointer dereference, which panics
the worker goroutine; the panic is modelled as the error case. -/
def goInfoSize : Option GoFileInfo → Except String Int
  | none => .error "runtime error: invalid memory address or nil pointer dereference"
  | some i => .ok i.size

/-- Embedding of `worker` (sha256.go lines 152-175) on a single job.  The
result struct is built first - including `job.Info.Size()` - and only then is
`job.Info == nil` checked, exactly as in the source; the per-file hash
computation is the external collaborator `computeFileHash`. -/
def goWorker (computeFileHash : String → Except String String) (job : FileJob) :
    Except String HashResult := do
  let sz ← goInfoSize job.info
  let base : HashResult :=
    { path := job.relPath, sha256 := "", size := sz, isDir := false, error := "" }
  if job.info.isNone then
    return { base with error := "failed to access file during directory walk" }
  else
    match computeFileHash job.path with
    | .error e => return { base with error := e }
    | .ok h => return { base with sha256 := h }

/-- Embedding of `processFilesConcurrently` (sha256.go lines 102-149): every
job is processed exactly once by the worker body; the pool is denoted by its
per-job function, and an unrecovered panic in any worker goroutine aborts the
whole program. -/
def goProcessFiles (computeFileHash : String → Except String String)
    (jobs : List FileJob) : Except String (List HashResult) :=
  jobs.mapM (goWorker computeFileHash)

/-- Embedding of the tail of `ComputeDirectoryHashes` (sha256.go lines 90-98):
process all gathered jobs, then sort results by path. -/
def goComputeDirectoryHashes (computeFileHash : String → Except String String)
    (jobs : List FileJob) : Except String (List HashResult) := do
  let results ← goProcessFiles computeFileHash jobs
  return List.insertionSort (fun a b => strle a.path b.path) results

end DP1

namespace DP1

/-- Claim C7: the capsule comparison lowercases both sides and returns
matched = expected ∩ actual, missing = expected − actual,
extra = actual − expected, each sorted ascending; and directory verification
succeeds exactly when missing and extra are both empty. -/
theorem compareHashLists_spec (expected actual : List String) :
    (∀ h, h ∈ (compareHashLists expected actual).1 ↔
      (h ∈ expected.map toLowerStr ∧ h ∈ actual.map toLowerStr)) ∧
    (∀ h, h ∈ (compareHashLists expected actual).2.1 ↔
      (h ∈ expected.map toLowerStr ∧ h ∉ actual.map toLowerStr)) ∧
    (∀ h, h ∈ (compareHashLists expected actual).2.2 ↔
      (h ∈ actual.map toLowerStr ∧ h ∉ expected.map toLowerStr)) ∧
    (compareHashLists expected actual).1.Sorted strle ∧
    (compareHashLists expected actual).2.1.Sorted strle ∧
    (compareHashLists expected actual).2.2.Sorted strle ∧
    (∀ results, (verifyDirectoryHashes expected results).success = true ↔
      ((verifyDirectoryHashes expected results).missingHashes = [] ∧
        (verifyDirectoryHashes expected results).extraHashes = [])) := by
  refine ⟨?_, ?_, ?_, ?_, ?_, ?_, ?_⟩
  · intro h
    simp [compareHashLists, lowerSet, mem_sortStrings, List.mem_filter,
      List.mem_dedup]
  · intro h
    simp [compareHashLists, lowerSet, mem_sortStrings, List.mem_filter,
      List.mem_dedup]
  · intro h
    simp [compareHashLists, lowerSet, mem_sortStrings, List.mem_filter,
      List.mem_dedup]
  · exact sorted_sortStrings _
  · exact sorted_sortStrings _
  · exact sorted_sortStrings _
  · intro results
    simp [verifyDirectoryHashes, Bool.and_eq_true, List.length_eq_zero]

end DP1

namespace DP1

/-- Concrete per-file hash collaborator for the claim C8 evaluation: one path
fails with a read error, all others hash successfully. -/
def c8Hash : String → Except String String :=
  fun p => if p == "/cap/unreadable" then .error "open /cap/unreadable: permission denied"
           else .ok "2cf24dba5fb0a30e26e83b2ac5b9e29e1b161e5c1fa7425e73043362938b9824"

/-- Claim C8 evaluated on the code: a per-file read error during hashing is
captured in the result and the scan completes, but a file that failed during
the directory walk (nil `os.FileInfo`) panics the worker at `job.Info.Size()`
and aborts the whole scan instead of producing the error result the nil check
below it intends. -/
theorem goComputeDirectoryHashes_walk_error_aborts :
    goComputeDirectoryHashes c8Hash
        [{ path := "/cap/unreadable", relPath := "unreadable", info := some ⟨7⟩ },
         { path := "/cap/lost", relPath := "lost", info := none }] =
      .error "runtime error: invalid memory address or nil pointer dereference" ∧
    goComputeDirectoryHashes c8Hash
        [{ path := "/cap/ok", relPath := "ok", info := some ⟨3⟩ },
         { path := "/cap/unreadable", relPath := "unreadable", info := some ⟨7⟩ }] =
      .ok [{ path := "ok",
             sha256 := "2cf24dba5fb0a30e26e83b2ac5b9e29e1b161e5c1fa7425e73043362938b9824",
             size := 3, isDir := false, error := "" },
           { path := "unreadable", sha256 := "", size := 7, isDir := false,
             error := "open /cap/unreadable: permission denied" }] := by
  exact ⟨rfl, rfl⟩

end DP1

namespace DP1

/-! ## Referential store

Embedding of src/prototype/server/storage.ts.  Playlists and groups are
structured values: `JSON.stringify` on write and `JSON.parse` on read are
modelled by the `KVValue` constructors (the pair round-trips for these data).
The KV namespaces `DP1_PLAYLISTS` and `DP1_PLAYLIST_GROUPS` are association
lists; the network fetch plus Zod validation of an external playlist is the
collaborator `Fetcher`, returning a DP-1-valid playlist or failure. -/

/-- The playlist fields consulted by the storage layer. -/
structure Playlist where
  id : String
  slug : String
deriving DecidableEq, Repr

/-- The playlist-group fields consulted by the storage layer. -/
structure PlaylistGroup where
  id : String
  slug : String
  playlists : List String
deriving DecidableEq, Repr

/-- A stored KV value: a plain string (slug pointers) or a serialized
playlist / playlist group. -/
inductive KVValue where
  | text (s : String) : KVValue
  | playlist (p : Playlist) : KVValue
  | group (g : PlaylistGroup) : KVValue
deriving DecidableEq, Repr

/-- One KV namespace, as an association list of key/value pairs. -/
abbrev Store := List (String × KVValue)

/-- KV `get`. -/
def lookupKV : Store → String → Option KVValue
  | [], _ => none
  | (k, v) :: rest, key => if key = k then some v else lookupKV rest key

/-- KV `delete`. -/
def delKV (s : Store) (k : String) : Store :=
  s.filter (fun e => decide (e.1 ≠ k))

/-- KV `put` (overwrites any existing value under the key). -/
def putKV (s : Store) (k : String) (v : KVValue) : Store :=
  (k, v) :: delKV s k

/-- The distinct keys of a namespace that carry a given prefix, in ascending
order: the key set a KV `list({prefix})` call pages through. -/
def keysWithPre (s : Store) (pre : String) : List String :=
  sortStrings (((s.map Prod.fst).filter (fun k => startsWithStr k pre)).dedup)

/-- STORAGE_KEYS.PLAYLIST_ID_PREFIX. -/
def keyPlaylistId : String := "playlist:id:"

/-- STORAGE_KEYS.PLAYLIST_SLUG_PREFIX. -/
def keyPlaylistSlug : String := "playlist:slug:"

/-- STORAGE_KEYS.PLAYLIST_GROUP_ID_PREFIX. -/
def keyGroupId : String := "playlist-group:id:"

/-- STORAGE_KEYS.PLAYLIST_GROUP_SLUG_PREFIX. -/
def keyGroupSlug : String := "playlist-group:slug:"

/-- STORAGE_KEYS.PLAYLIST_BY_GROUP_PREFIX. -/
def keyByGroup : String := "playlist:playlist-group-id:"

/-- Environment bindings consulted by the storage layer: the two KV
namespaces and the SELF_HOSTED_DOMAINS configuration (`none` models both an
unset variable and the `?? null` default). -/
structure Env where
  selfHostedDomains : Option String
  playlists : Store
  playlistGroups : Store
deriving DecidableEq, Repr

/-- The network fetch collaborator: `fetch(url)` followed by `response.ok`,
`response.json()` and `PlaylistSchema.safeParse`, yielding a valid playlist or
a failure (non-2xx, invalid JSON, or failed DP-1 validation). -/
abbrev Fetcher := String → Option Playlist

/-! ### URL handling

`new URL(...)` is the platform's WHATWG parser; for the `http(s)://host[:port]/path`
URLs that reach this code it is modelled by `parseUrl` (no userinfo or
default-port normalization, which none of the claims exercise). -/

/-- Parsed URL fields consulted by storage.ts. -/
structure Url where
  scheme : String
  hostname : String
  port : String
  pathname : String
deriving DecidableEq, Repr

/-- Model of `new URL(s)` for http/https URLs: scheme, host (split into
hostname and optional port at the first colon) and pathname (`/` when the
authority is not followed by a path). Returns `none` (the TypeError branch)
for other inputs. -/
def parseUrl (s : String) : Option Url :=
  let rest? : Option (String × String) :=
    if startsWithStr s "http://" then some ("http", dropChars s 7)
    else if startsWithStr s "https://" then some ("https", dropChars s 8)
    else none
  match rest? with
  | none => none
  | some (scheme, rest) =>
    let hostChars := rest.data.takeWhile (fun c => c != '/')
    let pathChars := rest.data.drop hostChars.length
    let pathname := if pathChars.isEmpty then "/" else String.mk pathChars
    if hostChars.isEmpty then none
    else
      let hostChars' := hostChars.takeWhile (fun c => c != ':')
      let port :=
        if hostChars'.length == hostChars.length then ""
        else String.mk (hostChars.drop (hostChars'.length + 1))
      some { scheme := scheme, hostname := String.mk hostChars', port := port,
             pathname := pathname }

/-- `port ? hostname:port : hostname` from `isSelfHostedUrl`. -/
def hostWithPort (u : Url) : String :=
  if u.port ≠ "" then u.hostname ++ ":" ++ u.port else u.hostname

/-- `selfHostedDomains.split(',').map(d => d.trim())`. -/
def domainsOf (sd : String) : List String :=
  (splitOnChar sd ',').map trimStr

/-- Embedding of `isSelfHostedUrl` (storage.ts lines 28-46): false when the
configuration is absent or empty or the URL does not parse; otherwise true
when some configured domain equals the host-with-port or the bare hostname. -/
def isSelfHostedUrl (url : String) (selfHostedDomains : Option String) : Bool :=
  match selfHostedDomains with
  | none => false
  | some sd =>
    if sd = "" then false
    else
      match parseUrl url with
      | none => false
      | some u => (domainsOf sd).any (fun d => hostWithPort u == d || u.hostname == d)

/-- Character class of the identifier capture group `[a-zA-Z0-9\-_]`. -/
def isIdentChar (c : Char) : Bool :=
  c.isAlphanum || c = '-' || c = '_'

/-- Embedding of `extractPlaylistIdentifierFromUrl` (storage.ts lines 51-64):
the regex `^\/api\/v1\/playlists\/([a-zA-Z0-9\-_]+)$` applied to the
pathname. -/
def extractPlaylistIdentifierFromUrl (url : String) : Option String :=
  match parseUrl url with
  | none => none
  | some u =>
    if startsWithStr u.pathname "/api/v1/playlists/" then
      let ident := dropChars u.pathname 18
      if ident ≠ "" ∧ ident.data.all isIdentChar then some ident else none
    else none

/-- Hex-digit test of the UUID regex (case-insensitive `[0-9a-f]`). -/
def isHexChar (c : Char) : Bool :=
  ('0' ≤ c && c ≤ '9') || ('a' ≤ c && c ≤ 'f') || ('A' ≤ c && c ≤ 'F')

/-- Embedding of the UUID test
`/^[0-9a-f]{8}-[0-9a-f]{4}-[0-9a-f]{4}-[0-9a-f]{4}-[0-9a-f]{12}$/i`. -/
def isUuidFormat (s : String) : Bool :=
  let cs := s.data
  cs.length == 36 &&
  (List.range 36).all (fun i =>
    if i == 8 || i == 13 || i == 18 || i == 23 then cs.getD i ' ' == '-'
    else isHexChar (cs.getD i ' '))

/-- Embedding of `getPlaylistByIdOrSlug` (storage.ts lines 152-181): a
UUID-shaped identifier is used directly; otherwise the slug pointer is
resolved first; then the ID record is read and parsed. -/
def getPlaylistByIdOrSlug (identifier : String) (env : Env) : Option Playlist :=
  let pid? : Option String :=
    if isUuidFormat identifier then some identifier
    else
      match lookupKV env.playlists (keyPlaylistSlug ++ identifier) with
      | some (.text pid) => some pid
      | _ => none
  match pid? with
  | none => none
  | some pid =>
    match lookupKV env.playlists (keyPlaylistId ++ pid) with
    | some (.playlist p) => some p
    | _ => none

/-- Embedding of `getPlaylistGroupByIdOrSlug` (storage.ts lines 395-426). -/
def getPlaylistGroupByIdOrSlug (identifier : String) (env : Env) : Option PlaylistGroup :=
  let gid? : Option String :=
    if isUuidFormat identifier then some identifier
    else
      match lookupKV env.playlistGroups (keyGroupSlug ++ identifier) with
      | some (.text gid) => some gid
      | _ => none
  match gid? with
  | none => none
  | some gid =>
    match lookupKV env.playlistGroups (keyGroupId ++ gid) with
    | some (.group g) => some g
    | _ => none

/-- Embedding of `fetchAndValidatePlaylist` (storage.ts lines 71-124),
instrumented with the list of URLs handed to the fetch collaborator: a
self-hosted URL is resolved by extracting the identifier from the path and
querying the local store, with no fetch; any other URL is fetched (and
validated by the collaborator) exactly once. -/
def fetchAndValidatePlaylist (url : String) (env : Env) (fetch : Fetcher) :
    Option (String × Playlist) × List String :=
  if isSelfHostedUrl url env.selfHostedDomains then
    match extractPlaylistIdentifierFromUrl url with
    | none => (none, [])
    | some ident =>
      match getPlaylistByIdOrSlug ident env with
      | none => (none, [])
      | some p => (some (p.id, p), [])
  else
    match fetch url with
    | none => (none, [url])
    | some p => (some (p.id, p), [url])

/-- The per-URL resolution step of `savePlaylistGroup` (storage.ts lines
298-311): only `http://`/`https://` URLs are handed to
`fetchAndValidatePlaylist`; anything else fails with no fetch. -/
def resolveGroupUrl (url : String) (env : Env) (fetch : Fetcher) :
    Option (String × Playlist) × List String :=
  if startsWithStr url "http://" || startsWithStr url "https://" then
    fetchAndValidatePlaylist url env fetch
  else (none, [])

/-- One store operation of the save batch, tagged with its namespace. -/
inductive StoreOp where
  | putP (k : String) (v : KVValue) : StoreOp
  | delP (k : String) : StoreOp
  | putG (k : String) (v : KVValue) : StoreOp
deriving DecidableEq, Repr

/-- Apply one store operation to the environment. -/
def applyOp (env : Env) : StoreOp → Env
  | .putP k v => { env with playlists := putKV env.playlists k v }
  | .delP k => { env with playlists := delKV env.playlists k }
  | .putG k v => { env with playlistGroups := putKV env.playlistGroups k v }

/-- Apply the batched operations in the order they were issued. -/
def applyOps (env : Env) (ops : List StoreOp) : Env := ops.foldl applyOp env

/-- Outcome of `savePlaylistGroup`: the returned boolean, the resulting
store state, the URLs handed to the fetch collaborator, and the store
operations issued. -/
structure SaveOutcome where
  success : Bool
  env : Env
  fetched : List String
  ops : List StoreOp
deriving DecidableEq, Repr

/-- The validated playlist references of a group save: the per-URL resolution
results in playlist order, with failures kept as `none`. -/
def groupResolved (g : PlaylistGroup) (env : Env) (fetch : Fetcher) :
    List (Option (String × Playlist)) :=
  (g.playlists.map (fun url => resolveGroupUrl url env fetch)).map Prod.fst

/-- The successfully validated playlists (`validPlaylists` in the source). -/
def groupValidated (g : PlaylistGroup) (env : Env) (fetch : Fetcher) :
    List (String × Playlist) :=
  (groupResolved g env fetch).filterMap id

/-- The first two operations of the save batch (storage.ts lines 335-346):
the group record by ID and the slug-to-ID pointer. -/
def saveBaseOps (g : PlaylistGroup) : List StoreOp :=
  [StoreOp.putG (keyGroupId ++ g.id) (.group g),
   StoreOp.putG (keyGroupSlug ++ g.slug) (.text g.id)]

/-- The stale-index deletions of the save batch (storage.ts lines 348-357):
issued only when a group was found under this ID, one delete per existing
membership-index key under the group's prefix. -/
def savePruneOps (g : PlaylistGroup) (env : Env) : List StoreOp :=
  match getPlaylistGroupByIdOrSlug g.id env with
  | some _ => (keysWithPre env.playlists (keyByGroup ++ g.id ++ ":")).map StoreOp.delP
  | none => []

/-- The per-playlist writes of the save batch (storage.ts lines 359-382): the
playlist record, its slug pointer and the membership-index entry
(`validPlaylist.playlist` is always set, so the record and slug pointer are
written for every validated reference). -/
def saveMemberOps (g : PlaylistGroup) (env : Env) (fetch : Fetcher) : List StoreOp :=
  ((groupValidated g env fetch).map (fun vp =>
    [StoreOp.putP (keyPlaylistId ++ vp.1) (.playlist vp.2),
     StoreOp.putP (keyPlaylistSlug ++ vp.2.slug) (.text vp.1),
     StoreOp.putP (keyByGroup ++ g.id ++ ":" ++ vp.1) (.text vp.1)])).flatten

/-- The full operation batch of a successful save, in issue order. -/
def saveOps (g : PlaylistGroup) (env : Env) (fetch : Fetcher) : List StoreOp :=
  saveBaseOps g ++ savePruneOps g env ++ saveMemberOps g env fetch

/-- Embedding of `savePlaylistGroup` (storage.ts lines 290-390).  All
references are resolved first; an empty group, a group with no valid
reference, or a group with at least one invalid reference is rejected before
any store operation is issued.  On the success path the batch holds the group
record and slug pointer, then - when a group record was found under this ID -
the deletion of every existing membership-index key under the group's prefix,
then for each validated playlist its record, slug pointer and membership
index; the batch is applied in issue order. -/
def savePlaylistGroup (g : PlaylistGroup) (env : Env) (fetch : Fetcher) : SaveOutcome :=
  if g.playlists.length == 0 then
    { success := false, env := env, fetched := [], ops := [] }
  else
    let resolved := g.playlists.map (fun url => resolveGroupUrl url env fetch)
    let fetched := (resolved.map Prod.snd).flatten
    let validated := resolved.map Prod.fst
    let validPlaylists := validated.filterMap id
    if validPlaylists.length == 0 && decide (0 < g.playlists.length) then
      { success := false, env := env, fetched := fetched, ops := [] }
    else if validPlaylists.length < validated.length then
      { success := false, env := env, fetched := fetched, ops := [] }
    else
      { success := true, env := applyOps env (saveOps g env fetch), fetched := fetched,
        ops := saveOps g env fetch }

end DP1

namespace DP1

/-! ### Listing with pagination -/

/-- Options accepted by the list operations (`ListOptions` in storage.ts). -/
structure ListOptions where
  limit : Option Nat
  cursor : Option String
deriving DecidableEq, Repr

/-- A page returned by one list operation (`PaginatedResult`). -/
structure PaginatedResult (α : Type) where
  items : List α
  cursor : Option String
  hasMore : Bool
deriving DecidableEq, Repr

/-- Response of the KV `list` primitive. -/
structure KVListResult where
  keys : List String
  listComplete : Bool
  cursor : Option String
deriving DecidableEq, Repr

/-- The matching keys still ahead of an (opaque) continuation cursor; the
cursor is modelled as the last key of the previous page. -/
def keysAfter (s : Store) (pre : String) (cursor : Option String) : List String :=
  match cursor with
  | none => keysWithPre s pre
  | some c => (keysWithPre s pre).filter (fun k => !charListLe k.data c.data)

/-- Model of the external KV `list({prefix, limit, cursor})` primitive: one
page of at most `limit` matching keys in ascending order, `list_complete`
exactly when nothing remains beyond the page, and a continuation cursor
otherwise. -/
def listPage (s : Store) (pre : String) (limit : Nat) (cursor : Option String) :
    KVListResult :=
  let rest := keysAfter s pre cursor
  let page := rest.take limit
  let complete := decide (rest.length ≤ limit)
  { keys := page, listComplete := complete,
    cursor := if complete then none else page.getLast? }

/-- The effective page size of `listAllPlaylists` / `listPlaylistsByGroupId`:
`options.limit || 100`, then clamped to at most 100. -/
def cappedLimit (l : Option Nat) : Nat :=
  let a := match l with | none => 0 | some n => n
  let b := if a == 0 then 100 else a
  if b > 100 then 100 else b

/-- The effective page size of `listAllPlaylistGroups`:
`options.limit || 1000`, with no clamp. -/
def groupsLimit (l : Option Nat) : Nat :=
  let a := match l with | none => 0 | some n => n
  if a == 0 then 1000 else a

/-- Embedding of `listAllPlaylists` (storage.ts lines 186-229): one KV page
under the playlist-ID prefix, each key's value fetched and parsed (entries
that are missing or fail to parse are skipped), cursor passed through only
when the listing is incomplete. -/
def listAllPlaylists (env : Env) (opts : ListOptions) : PaginatedResult Playlist :=
  let resp := listPage env.playlists keyPlaylistId (cappedLimit opts.limit) opts.cursor
  let items := resp.keys.filterMap (fun k =>
    match lookupKV env.playlists k with
    | some (.playlist p) => some p
    | _ => none)
  { items := items,
    cursor := if resp.listComplete then none else resp.cursor,
    hasMore := !resp.listComplete }

/-- Embedding of `listPlaylistsByGroupId` (storage.ts lines 234-285): one KV
page under the group's membership prefix; the playlist ID is the last
colon-separated segment of each key and the playlist record is read under the
ID prefix. -/
def listPlaylistsByGroupId (playlistGroupId : String) (env : Env)
    (opts : ListOptions) : PaginatedResult Playlist :=
  let resp := listPage env.playlists (keyByGroup ++ playlistGroupId ++ ":")
    (cappedLimit opts.limit) opts.cursor
  let items := resp.keys.filterMap (fun k =>
    let pid := (splitOnChar k ':').getLastD ""
    match lookupKV env.playlists (keyPlaylistId ++ pid) with
    | some (.playlist p) => some p
    | _ => none)
  { items := items,
    cursor := if resp.listComplete then none else resp.cursor,
    hasMore := !resp.listComplete }

/-- Embedding of `listAllPlaylistGroups` (storage.ts lines 431-471): like
`listAllPlaylists` but over the group namespace and with the uncapped
`options.limit || 1000` page size. -/
def listAllPlaylistGroups (env : Env) (opts : ListOptions) :
    PaginatedResult PlaylistGroup :=
  let resp := listPage env.playlistGroups keyGroupId (groupsLimit opts.limit) opts.cursor
  let items := resp.keys.filterMap (fun k =>
    match lookupKV env.playlistGroups k with
    | some (.group g) => some g
    | _ => none)
  { items := items,
    cursor := if resp.listComplete then none else resp.cursor,
    hasMore := !resp.listComplete }

end DP1

namespace DP1

theorem filterMap_id_length_lt {α : Type} {l : List (Option α)} (h : none ∈ l) :
    (l.filterMap id).length < l.length := by
  induction l with
  | nil => cases h
  | cons a t ih =>
    cases a with
    | none =>
      simp only [List.filterMap_cons, id, List.length_cons]
      exact Nat.lt_succ_of_le (List.length_filterMap_le id t)
    | some x =>
      have h' : none ∈ t := by
        rcases List.mem_cons.mp h with h0 | h0
        · exact absurd h0 (by simp)
        · exact h0
      simp only [List.filterMap_cons, id, List.length_cons]
      exact Nat.succ_lt_succ (ih h')

/-- On a group with at least one failed reference, `savePlaylistGroup`
resolves everything, then rejects the save before issuing any operation. -/
theorem savePlaylistGroup_fail_eq (g : PlaylistGroup) (env : Env) (fetch : Fetcher)
    (h : ∃ url ∈ g.playlists, (resolveGroupUrl url env fetch).1 = none) :
    savePlaylistGroup g env fetch =
      { success := false, env := env,
        fetched := ((g.playlists.map (fun url => resolveGroupUrl url env fetch)).map
          Prod.snd).flatten,
        ops := [] } := by
  obtain ⟨url, hmem, hres⟩ := h
  have hne : ¬((g.playlists.length == 0) = true) := by
    simp only [beq_iff_eq, List.length_eq_zero]
    intro h0
    rw [h0] at hmem
    cases hmem
  have hnone : none ∈ (g.playlists.map (fun url => resolveGroupUrl url env fetch)).map
      Prod.fst := by
    refine List.mem_map.mpr ⟨resolveGroupUrl url env fetch, List.mem_map.mpr ⟨url, hmem, rfl⟩, hres⟩
  have hlt : (((g.playlists.map (fun url => resolveGroupUrl url env fetch)).map
      Prod.fst).filterMap id).length <
      ((g.playlists.map (fun url => resolveGroupUrl url env fetch)).map Prod.fst).length :=
    filterMap_id_length_lt hnone
  unfold savePlaylistGroup
  rw [if_neg hne]
  have hpos : (0 : Nat) < g.playlists.length := by
    rcases Nat.eq_zero_or_pos g.playlists.length with h0 | h0
    · exact absurd (by simp [h0]) hne
    · exact h0
  by_cases hz : ((((g.playlists.map (fun url => resolveGroupUrl url env fetch)).map
      Prod.fst).filterMap id).length == 0) = true
  · have hcond : ((((g.playlists.map (fun url => resolveGroupUrl url env fetch)).map
        Prod.fst).filterMap id).length == 0 && decide (0 < g.playlists.length)) = true := by
      rw [hz, decide_eq_true hpos]
      rfl
    rw [if_pos hcond]
  · have hzf : ((((g.playlists.map (fun url => resolveGroupUrl url env fetch)).map
        Prod.fst).filterMap id).length == 0) = false := by
      simpa using hz
    have hcond : ((((g.playlists.map (fun url => resolveGroupUrl url env fetch)).map
        Prod.fst).filterMap id).length == 0 && decide (0 < g.playlists.length)) = false := by
      rw [hzf]
      rfl
    rw [if_neg (by rw [hcond]; exact Bool.false_ne_true), if_pos hlt]

/-- Claim C5: savePlaylistGroup is all-or-nothing.  A group containing a
reference that fails resolution or validation makes the save return false and
issue no store write: the resulting store state is the input state and the
operation batch is empty. -/
theorem savePlaylistGroup_all_or_nothing (g : PlaylistGroup) (env : Env) (fetch : Fetcher)
    (h : ∃ url ∈ g.playlists, (resolveGroupUrl url env fetch).1 = none) :
    (savePlaylistGroup g env fetch).success = false ∧
    (savePlaylistGroup g env fetch).env = env ∧
    (savePlaylistGroup g env fetch).ops = [] := by
  rw [savePlaylistGroup_fail_eq g env fetch h]
  exact ⟨rfl, rfl, rfl⟩

/-- Witness for claim C5: a group with one unreachable external URL is
rejected without touching a non-empty prior store. -/
theorem savePlaylistGroup_all_or_nothing_witness :
    (∃ url ∈ ["http://feeds.example/api/v1/playlists/p1"],
      (resolveGroupUrl url
        { selfHostedDomains := none,
          playlists := [(keyPlaylistId ++ "p0", .playlist { id := "p0", slug := "s0" })],
          playlistGroups := [] } (fun _ => none)).1 = none) ∧
    (savePlaylistGroup
        { id := "g1", slug := "g-one", playlists := ["http://feeds.example/api/v1/playlists/p1"] }
        { selfHostedDomains := none,
          playlists := [(keyPlaylistId ++ "p0", .playlist { id := "p0", slug := "s0" })],
          playlistGroups := [] } (fun _ => none)).success = false ∧
    (savePlaylistGroup
        { id := "g1", slug := "g-one", playlists := ["http://feeds.example/api/v1/playlists/p1"] }
        { selfHostedDomains := none,
          playlists := [(keyPlaylistId ++ "p0", .playlist { id := "p0", slug := "s0" })],
          playlistGroups := [] } (fun _ => none)).env =
      { selfHostedDomains := none,
        playlists := [(keyPlaylistId ++ "p0", .playlist { id := "p0", slug := "s0" })],
        playlistGroups := [] } := by
  have hfail : ∃ url ∈ ["http://feeds.example/api/v1/playlists/p1"],
      (resolveGroupUrl url
        { selfHostedDomains := none,
          playlists := [(keyPlaylistId ++ "p0", .playlist { id := "p0", slug := "s0" })],
          playlistGroups := [] } (fun _ => none)).1 = none := by
    exact ⟨"http://feeds.example/api/v1/playlists/p1", by decide, by decide⟩
  have hmain := savePlaylistGroup_all_or_nothing
    { id := "g1", slug := "g-one", playlists := ["http://feeds.example/api/v1/playlists/p1"] }
    { selfHostedDomains := none,
      playlists := [(keyPlaylistId ++ "p0", .playlist { id := "p0", slug := "s0" })],
      playlistGroups := [] } (fun _ => none) hfail
  exact ⟨hfail, hmain.1, hmain.2.1⟩

end DP1

namespace DP1

/-- The condition under which a group reference reaches the network fetch
collaborator: an `http(s)` URL that is not self-hosted. -/
def fetchesExternally (u : String) (env : Env) : Bool :=
  (startsWithStr u "http://" || startsWithStr u "https://") &&
    !isSelfHostedUrl u env.selfHostedDomains

theorem resolveGroupUrl_snd (u : String) (env : Env) (fetch : Fetcher) :
    (resolveGroupUrl u env fetch).2 =
      if fetchesExternally u env then [u] else [] := by
  unfold resolveGroupUrl fetchAndValidatePlaylist fetchesExternally
  by_cases hh : (startsWithStr u "http://" || startsWithStr u "https://") = true
  · rw [if_pos hh, hh]
    by_cases hs : isSelfHostedUrl u env.selfHostedDomains = true
    · rw [if_pos hs, hs]
      cases hex : extractPlaylistIdentifierFromUrl u with
      | none => rfl
      | some ident =>
        cases hget : getPlaylistByIdOrSlug ident env <;> simp [hget]
    · have hs' : isSelfHostedUrl u env.selfHostedDomains = false := by simpa using hs
      rw [if_neg hs, hs']
      cases hf : fetch u <;> simp [hf]
  · have hh' : (startsWithStr u "http://" || startsWithStr u "https://") = false := by
      simpa using hh
    rw [if_neg hh, hh']
    rfl

theorem count_flatten_resolveSnd (env : Env) (fetch : Fetcher) (url : String) :
    ∀ l : List String,
      List.count url ((l.map (fun u => (resolveGroupUrl u env fetch).2)).flatten) =
        if fetchesExternally url env then List.count url l else 0 := by
  have hfun : (fun u => (resolveGroupUrl u env fetch).2) =
      (fun u => if fetchesExternally u env then [u] else []) :=
    funext (fun u => resolveGroupUrl_snd u env fetch)
  intro l
  rw [hfun]
  induction l with
  | nil => simp
  | cons u t ih =>
    simp only [List.map_cons, List.flatten_cons, List.count_append, ih, List.count_cons]
    by_cases hu : u = url
    · subst hu
      by_cases hp : fetchesExternally u env = true <;> simp_all <;> omega
    · by_cases hp : fetchesExternally u env = true <;>
        by_cases hq : fetchesExternally url env = true <;>
          simp_all [List.count_cons] <;> omega

theorem savePlaylistGroup_fetched (g : PlaylistGroup) (env : Env) (fetch : Fetcher) :
    (savePlaylistGroup g env fetch).fetched =
      (g.playlists.map (fun u => (resolveGroupUrl u env fetch).2)).flatten := by
  unfold savePlaylistGroup
  by_cases h0 : (g.playlists.length == 0) = true
  · rw [if_pos h0]
    simp only [beq_iff_eq, List.length_eq_zero] at h0
    simp [h0]
  · rw [if_neg h0]
    simp only [apply_ite SaveOutcome.fetched, ite_self]
    rw [List.map_map]
    rfl

end DP1

namespace DP1

theorem isSelfHostedUrl_iff_hostMatch (url : String) (sd : String) (u : Url)
    (hsdne : sd ≠ "") (hparse : parseUrl url = some u) :
    isSelfHostedUrl url (some sd) = true ↔
      (hostWithPort u ∈ domainsOf sd ∨ u.hostname ∈ domainsOf sd) := by
  simp only [isSelfHostedUrl, if_neg hsdne, hparse, List.any_eq_true, Bool.or_eq_true,
    beq_iff_eq]
  constructor
  · rintro ⟨d, hd, h | h⟩
    · exact Or.inl (h ▸ hd)
    · exact Or.inr (h ▸ hd)
  · rintro (h | h)
    · exact ⟨hostWithPort u, h, Or.inl rfl⟩
    · exact ⟨u.hostname, h, Or.inr rfl⟩

/-- Claim C4: during `savePlaylistGroup`, a playlists URL whose host (bare
hostname, or hostname:port) matches a configured self-hosted domain is
resolved by extracting the identifier from the URL path and looking it up in
the local store, and is never handed to the network fetch collaborator; a URL
whose host matches neither form is fetched externally exactly once per
occurrence in the group. -/
theorem savePlaylistGroup_selfHosted_no_fetch (g : PlaylistGroup) (env : Env)
    (fetch : Fetcher) (url : String) (sd : String) (u : Url)
    (hsd : env.selfHostedDomains = some sd) (hsdne : sd ≠ "")
    (hmem : url ∈ g.playlists)
    (hhttp : (startsWithStr url "http://" || startsWithStr url "https://") = true)
    (hparse : parseUrl url = some u) :
    ((hostWithPort u ∈ domainsOf sd ∨ u.hostname ∈ domainsOf sd) →
      resolveGroupUrl url env fetch =
        ((extractPlaylistIdentifierFromUrl url).bind (fun ident =>
          (getPlaylistByIdOrSlug ident env).map (fun p => (p.id, p))), []) ∧
      List.count url (savePlaylistGroup g env fetch).fetched = 0) ∧
    ((¬ (hostWithPort u ∈ domainsOf sd ∨ u.hostname ∈ domainsOf sd)) →
      resolveGroupUrl url env fetch = ((fetch url).map (fun p => (p.id, p)), [url]) ∧
      List.count url (savePlaylistGroup g env fetch).fetched =
        List.count url g.playlists) := by
  have hcount := count_flatten_resolveSnd env fetch url g.playlists
  constructor
  · intro hmatch
    have hself : isSelfHostedUrl url env.selfHostedDomains = true := by
      rw [hsd]
      exact (isSelfHostedUrl_iff_hostMatch url sd u hsdne hparse).mpr hmatch
    constructor
    · unfold resolveGroupUrl fetchAndValidatePlaylist
      rw [if_pos hhttp, if_pos hself]
      cases hex : extractPlaylistIdentifierFromUrl url with
      | none => rfl
      | some ident =>
        cases hget : getPlaylistByIdOrSlug ident env with
        | none => simp [hget]
        | some p => simp [hget]
    · rw [savePlaylistGroup_fetched, hcount]
      have hext : fetchesExternally url env = false := by
        unfold fetchesExternally
        rw [hself]
        simp
      rw [hext]
      rfl
  · intro hmatch
    have hself : isSelfHostedUrl url env.selfHostedDomains = false := by
      rw [hsd]
      have := (isSelfHostedUrl_iff_hostMatch url sd u hsdne hparse)
      rcases Bool.eq_false_or_eq_true (isSelfHostedUrl url (some sd)) with h | h
      · exact absurd (this.mp h) hmatch
      · exact h
    constructor
    · unfold resolveGroupUrl fetchAndValidatePlaylist
      rw [if_pos hhttp, if_neg (by simp [hself])]
      cases hf : fetch url with
      | none => simp [hf]
      | some p => simp [hf]
    · rw [savePlaylistGroup_fetched, hcount]
      have hext : fetchesExternally url env = true := by
        unfold fetchesExternally
        rw [hself, hhttp]
        rfl
      rw [hext]
      rfl

end DP1

namespace DP1

/-- Self-hosted URL of the claim C4 witness scenario. -/
def c4UrlSelf : String :=
  "http://self.example.com/api/v1/playlists/79856015-edf8-4145-8be9-135222d4157d"

/-- External URL of the claim C4 witness scenario. -/
def c4UrlExt : String := "https://feeds.example.org/api/v1/playlists/x1"

/-- Parse of the self-hosted witness URL. -/
def c4UrlSelfObj : Url :=
  { scheme := "http", hostname := "self.example.com", port := "",
    pathname := "/api/v1/playlists/79856015-edf8-4145-8be9-135222d4157d" }

/-- Parse of the external witness URL. -/
def c4UrlExtObj : Url :=
  { scheme := "https", hostname := "feeds.example.org", port := "",
    pathname := "/api/v1/playlists/x1" }

/-- Witness environment for claim C4: one self-hosted domain configured, the
referenced playlist stored locally. -/
def c4Env : Env :=
  { selfHostedDomains := some "self.example.com",
    playlists := [(keyPlaylistId ++ "79856015-edf8-4145-8be9-135222d4157d",
      .playlist { id := "79856015-edf8-4145-8be9-135222d4157d", slug := "local-one" })],
    playlistGroups := [] }

/-- Witness group for claim C4: one self-hosted and one external reference. -/
def c4Group : PlaylistGroup :=
  { id := "g1", slug := "group-one", playlists := [c4UrlSelf, c4UrlExt] }

/-- Witness fetch collaborator for claim C4. -/
def c4Fetch : Fetcher :=
  fun url => if url == c4UrlExt then some { id := "ext-1", slug := "ext-one" } else none

/-- Witness for claim C4 at the concrete scenario: the self-hosted reference
is resolved locally with zero fetches of its URL, the external reference is
fetched exactly once. -/
theorem savePlaylistGroup_selfHosted_no_fetch_witness :
    (hostWithPort c4UrlSelfObj ∈ domainsOf "self.example.com" ∨
      c4UrlSelfObj.hostname ∈ domainsOf "self.example.com") ∧
    resolveGroupUrl c4UrlSelf c4Env c4Fetch =
      ((extractPlaylistIdentifierFromUrl c4UrlSelf).bind (fun ident =>
        (getPlaylistByIdOrSlug ident c4Env).map (fun p => (p.id, p))), []) ∧
    List.count c4UrlSelf (savePlaylistGroup c4Group c4Env c4Fetch).fetched = 0 ∧
    (¬ (hostWithPort c4UrlExtObj ∈ domainsOf "self.example.com" ∨
      c4UrlExtObj.hostname ∈ domainsOf "self.example.com")) ∧
    List.count c4UrlExt (savePlaylistGroup c4Group c4Env c4Fetch).fetched = 1 := by
  have hmatch : hostWithPort c4UrlSelfObj ∈ domainsOf "self.example.com" ∨
      c4UrlSelfObj.hostname ∈ domainsOf "self.example.com" := by decide
  have hnomatch : ¬ (hostWithPort c4UrlExtObj ∈ domainsOf "self.example.com" ∨
      c4UrlExtObj.hostname ∈ domainsOf "self.example.com") := by decide
  have h1 := savePlaylistGroup_selfHosted_no_fetch c4Group c4Env c4Fetch c4UrlSelf
    "self.example.com" c4UrlSelfObj rfl (by decide) (by decide) (by decide) (by decide)
  have h2 := savePlaylistGroup_selfHosted_no_fetch c4Group c4Env c4Fetch c4UrlExt
    "self.example.com" c4UrlExtObj rfl (by decide) (by decide) (by decide) (by decide)
  refine ⟨hmatch, (h1.1 hmatch).1, (h1.1 hmatch).2, hnomatch, ?_⟩
  rw [(h2.2 hnomatch).2]
  decide

end DP1

namespace DP1

/-! ### Effect of the operation batch on the playlist namespace -/

theorem lookupKV_delKV (s : Store) (k key : String) :
    lookupKV (delKV s k) key = if key = k then none else lookupKV s key := by
  induction s with
  | nil => simp [delKV, lookupKV]
  | cons e rest ih =>
    obtain ⟨k', v'⟩ := e
    by_cases hk : k' = k
    · subst hk
      simp only [delKV, List.filter_cons, decide_eq_true_eq]
      rw [if_neg (by simp)]
      rw [delKV] at ih
      rw [ih]
      by_cases hkey : key = k'
      · simp [hkey]
      · simp [hkey, lookupKV]
    · simp only [delKV, List.filter_cons, decide_eq_true_eq]
      rw [if_pos (by simp [hk])]
      simp only [lookupKV]
      by_cases hkey : key = k'
      · subst hkey
        simp [hk]
      · rw [if_neg hkey, if_neg hkey]
        rw [delKV] at ih
        exact ih

theorem lookupKV_putKV (s : Store) (k key : String) (v : KVValue) :
    lookupKV (putKV s k v) key = if key = k then some v else lookupKV s key := by
  simp only [putKV, lookupKV]
  by_cases hkey : key = k
  · simp [hkey]
  · rw [if_neg hkey, if_neg hkey, lookupKV_delKV, if_neg hkey]

theorem lookupKV_isSome_iff_mem (s : Store) (key : String) :
    (lookupKV s key).isSome = true ↔ key ∈ s.map Prod.fst := by
  induction s with
  | nil => simp [lookupKV]
  | cons e rest ih =>
    obtain ⟨k', v'⟩ := e
    simp only [lookupKV, List.map_cons, List.mem_cons]
    by_cases hkey : key = k'
    · simp [hkey]
    · rw [if_neg hkey]
      simp [hkey, ih]

/-- Does an operation read or write this key of the playlist namespace? -/
def touchesP : StoreOp → String → Bool
  | .putP k _, key => k == key
  | .delP k, key => k == key
  | .putG _ _, _ => false

/-- The final effect of an operation list on one key of the playlist
namespace: `some (some v)` when the last operation touching the key writes
`v`, `some none` when it deletes the key, `none` when no operation touches
it. -/
def lastPOp : List StoreOp → String → Option (Option KVValue)
  | [], _ => none
  | op :: rest, key =>
    match lastPOp rest key with
    | some r => some r
    | none =>
      match op with
      | .putP k v => if k = key then some (some v) else none
      | .delP k => if k = key then some none else none
      | .putG _ _ => none

theorem applyOps_playlists_lookup (ops : List StoreOp) :
    ∀ (env : Env) (key : String),
      lookupKV (applyOps env ops).playlists key =
        match lastPOp ops key with
        | some r => r
        | none => lookupKV env.playlists key := by
  induction ops with
  | nil => intro env key; rfl
  | cons op rest ih =>
    intro env key
    have hstep : applyOps env (op :: rest) = applyOps (applyOp env op) rest := rfl
    rw [hstep, ih]
    cases hr : lastPOp rest key with
    | some r => simp [lastPOp, hr]
    | none =>
      simp only [lastPOp, hr]
      cases op with
      | putP k v =>
        simp only [applyOp, lookupKV_putKV]
        by_cases hk : k = key
        · simp [hk]
        · rw [if_neg hk, if_neg (fun h => hk h.symm)]
      | delP k =>
        simp only [applyOp, lookupKV_delKV]
        by_cases hk : k = key
        · simp [hk]
        · rw [if_neg hk, if_neg (fun h => hk h.symm)]
      | putG k v => rfl

theorem lastPOp_append (l₁ l₂ : List StoreOp) (key : String) :
    lastPOp (l₁ ++ l₂) key =
      match lastPOp l₂ key with
      | some r => some r
      | none => lastPOp l₁ key := by
  induction l₁ with
  | nil =>
    cases h : lastPOp l₂ key <;> simp [lastPOp, h]
  | cons op rest ih =>
    simp only [List.cons_append, lastPOp]
    rw [List.append_eq, ih]
    cases h : lastPOp l₂ key with
    | some r => rfl
    | none => cases lastPOp rest key <;> rfl

theorem lastPOp_eq_none_iff (ops : List StoreOp) (key : String) :
    lastPOp ops key = none ↔ ∀ op ∈ ops, touchesP op key = false := by
  induction ops with
  | nil => simp [lastPOp]
  | cons op rest ih =>
    simp only [lastPOp, List.mem_cons]
    cases hr : lastPOp rest key with
    | some r =>
      simp only []
      constructor
      · intro h; cases h
      · intro h
        have : lastPOp rest key = none := ih.mpr (fun o ho => h o (Or.inr ho))
        rw [this] at hr
        cases hr
    | none =>
      have hrest : ∀ op ∈ rest, touchesP op key = false := ih.mp hr
      cases op with
      | putP k v =>
        by_cases hk : k = key
        · simp [hk, touchesP]
        · simp only [if_neg hk, touchesP]
          constructor
          · intro _
            rintro o (rfl | ho)
            · simp [hk]
            · exact hrest o ho
          · intro _; trivial
      | delP k =>
        by_cases hk : k = key
        · simp [hk, touchesP]
        · simp only [if_neg hk, touchesP]
          constructor
          · intro _
            rintro o (rfl | ho)
            · simp [hk]
            · exact hrest o ho
          · intro _; trivial
      | putG k v =>
        simp only [touchesP]
        constructor
        · intro _
          rintro o (rfl | ho)
          · rfl
          · exact hrest o ho
        · intro _; trivial

theorem putP_of_lastPOp_some (ops : List StoreOp) (key : String) (v : KVValue)
    (h : lastPOp ops key = some (some v)) : StoreOp.putP key v ∈ ops := by
  induction ops with
  | nil => cases h
  | cons op rest ih =>
    simp only [lastPOp] at h
    cases hr : lastPOp rest key with
    | some r =>
      rw [hr] at h
      cases h
      exact List.mem_cons_of_mem op (ih hr)
    | none =>
      rw [hr] at h
      cases op with
      | putP k w =>
        dsimp only at h
        by_cases hk : k = key
        · rw [if_pos hk] at h
          cases h
          subst hk
          exact List.mem_cons_self _ _
        · rw [if_neg hk] at h
          cases h
      | delP k =>
        dsimp only at h
        by_cases hk : k = key
        · rw [if_pos hk] at h
          cases h
        · rw [if_neg hk] at h
          cases h
      | putG k w =>
        dsimp only at h
        cases h

theorem lastPOp_no_del (l : List StoreOp) (key : String)
    (h : ∀ op ∈ l, touchesP op key = true → ∃ v, op = StoreOp.putP key v) :
    lastPOp l key = none ∨ ∃ v, lastPOp l key = some (some v) := by
  induction l with
  | nil => exact Or.inl rfl
  | cons op rest ih =>
    have hrest := ih (fun o ho ht => h o (List.mem_cons_of_mem op ho) ht)
    simp only [lastPOp]
    rcases hrest with hn | ⟨v, hv⟩
    · rw [hn]
      cases op with
      | putP k w =>
        dsimp only
        by_cases hk : k = key
        · exact Or.inr ⟨w, by rw [if_pos hk]⟩
        · rw [if_neg hk]
          exact Or.inl rfl
      | delP k =>
        dsimp only
        by_cases hk : k = key
        · obtain ⟨v, hv⟩ := h (StoreOp.delP k) (List.mem_cons_self _ _) (by simp [touchesP, hk])
          cases hv
        · rw [if_neg hk]
          exact Or.inl rfl
      | putG k w =>
        dsimp only
        exact Or.inl rfl
    · rw [hv]
      exact Or.inr ⟨v, rfl⟩

end DP1

namespace DP1

theorem savePlaylistGroup_success_parts (g : PlaylistGroup) (env : Env) (fetch : Fetcher)
    (hsucc : (savePlaylistGroup g env fetch).success = true) :
    (savePlaylistGroup g env fetch).ops = saveOps g env fetch ∧
    (savePlaylistGroup g env fetch).env = applyOps env (saveOps g env fetch) := by
  simp only [savePlaylistGroup] at hsucc ⊢
  by_cases h0 : (g.playlists.length == 0) = true
  · rw [if_pos h0] at hsucc
    cases hsucc
  · rw [if_neg h0] at hsucc ⊢
    split at hsucc
    · cases hsucc
    · split at hsucc
      · cases hsucc
      · rename_i hc2 hc3
        rw [if_neg hc2, if_neg hc3]
        exact ⟨rfl, rfl⟩

/-- Two strings with different tenth-character prefixes cannot satisfy the
prefix test, whatever is appended to either. -/
theorem not_startsWith_of_take10 (a b x r : String)
    (h : b.data.take 10 ≠ a.data.take 10)
    (ha : 10 ≤ a.data.length) (hb : 10 ≤ b.data.length) :
    startsWithStr (a ++ x) (b ++ r) = false := by
  rcases Bool.eq_false_or_eq_true (startsWithStr (a ++ x) (b ++ r)) with ht | hf
  case inr => exact hf
  · exfalso
    rw [startsWithStr_iff] at ht
    obtain ⟨t, hteq⟩ := ht
    rw [String.data_append, String.data_append] at hteq
    have h10 : (a.data ++ x.data).take 10 = ((b.data ++ r.data) ++ t).take 10 := by
      rw [hteq]
    rw [List.take_append_eq_append_take, List.take_append_eq_append_take,
      List.take_append_eq_append_take] at h10
    have hxa : 10 - a.data.length = 0 := by omega
    have hxb : 10 - b.data.length = 0 := by omega
    have hbr : 10 - (b.data ++ r.data).length = 0 := by
      rw [List.length_append]
      omega
    rw [hxa, hbr] at h10
    rw [List.take_zero, List.take_zero, List.append_nil, List.append_nil] at h10
    rw [hxb, List.take_zero, List.append_nil] at h10
    exact h (h10.symm)

theorem playlistId_key_not_under_memberPre (gid x : String) :
    startsWithStr (keyPlaylistId ++ x) (keyByGroup ++ gid ++ ":") = false := by
  have hassoc : keyByGroup ++ gid ++ ":" = keyByGroup ++ (gid ++ ":") := by
    rw [String.append_assoc]
  rw [hassoc]
  exact not_startsWith_of_take10 keyPlaylistId keyByGroup x (gid ++ ":")
    (by decide) (by decide) (by decide)

theorem playlistSlug_key_not_under_memberPre (gid x : String) :
    startsWithStr (keyPlaylistSlug ++ x) (keyByGroup ++ gid ++ ":") = false := by
  have hassoc : keyByGroup ++ gid ++ ":" = keyByGroup ++ (gid ++ ":") := by
    rw [String.append_assoc]
  rw [hassoc]
  exact not_startsWith_of_take10 keyPlaylistSlug keyByGroup x (gid ++ ":")
    (by decide) (by decide) (by decide)

end DP1

namespace DP1

theorem mem_keysWithPre (s : Store) (pre key : String) :
    key ∈ keysWithPre s pre ↔ key ∈ s.map Prod.fst ∧ startsWithStr key pre = true := by
  simp [keysWithPre, mem_sortStrings, List.mem_filter]

theorem putP_mem_saveOps_cases (g : PlaylistGroup) (env : Env) (fetch : Fetcher)
    (key : String) (v : KVValue)
    (h : StoreOp.putP key v ∈ saveOps g env fetch) :
    ∃ vp ∈ groupValidated g env fetch,
      key = keyPlaylistId ++ vp.1 ∨ key = keyPlaylistSlug ++ vp.2.slug ∨
      key = keyByGroup ++ g.id ++ ":" ++ vp.1 := by
  unfold saveOps at h
  rcases List.mem_append.mp h with h | hm
  · rcases List.mem_append.mp h with hb | hp
    · simp [saveBaseOps] at hb
    · exfalso
      unfold savePruneOps at hp
      cases hgg : getPlaylistGroupByIdOrSlug g.id env with
      | none =>
        rw [hgg] at hp
        cases hp
      | some _ =>
        rw [hgg] at hp
        obtain ⟨k, _, hk⟩ := List.mem_map.mp hp
        cases hk
  · unfold saveMemberOps at hm
    obtain ⟨l, hl, hop⟩ := List.mem_flatten.mp hm
    obtain ⟨vp, hvp, hl'⟩ := List.mem_map.mp hl
    subst hl'
    refine ⟨vp, hvp, ?_⟩
    rcases List.mem_cons.mp hop with h1 | hop
    · cases h1
      exact Or.inl rfl
    rcases List.mem_cons.mp hop with h2 | hop
    · cases h2
      exact Or.inr (Or.inl rfl)
    rcases List.mem_cons.mp hop with h3 | hop
    · cases h3
      exact Or.inr (Or.inr rfl)
    · cases hop

theorem memberOps_all_putP (g : PlaylistGroup) (env : Env) (fetch : Fetcher) :
    ∀ op ∈ saveMemberOps g env fetch, ∃ k v, op = StoreOp.putP k v := by
  intro op hop
  unfold saveMemberOps at hop
  obtain ⟨l, hl, hmem⟩ := List.mem_flatten.mp hop
  obtain ⟨vp, _, hl'⟩ := List.mem_map.mp hl
  subst hl'
  rcases List.mem_cons.mp hmem with h | hmem
  · exact ⟨_, _, h⟩
  rcases List.mem_cons.mp hmem with h | hmem
  · exact ⟨_, _, h⟩
  rcases List.mem_cons.mp hmem with h | hmem
  · exact ⟨_, _, h⟩
  · cases hmem

theorem member_put_mem_memberOps (g : PlaylistGroup) (env : Env) (fetch : Fetcher)
    (vp : String × Playlist) (hvp : vp ∈ groupValidated g env fetch) :
    StoreOp.putP (keyByGroup ++ g.id ++ ":" ++ vp.1) (.text vp.1) ∈
      saveMemberOps g env fetch := by
  unfold saveMemberOps
  refine List.mem_flatten.mpr ⟨_, List.mem_map.mpr ⟨vp, hvp, rfl⟩, ?_⟩
  simp

end DP1

namespace DP1

/-- Claim C6 (amended): after a successful `savePlaylistGroup` for a group
whose record was already present under its ID (the update case, in which the
stale-index pruning runs), the membership-index keys under the group's prefix
are exactly the IDs of the group's current validated playlists. -/
theorem savePlaylistGroup_memberIndex_exact (g : PlaylistGroup) (env : Env)
    (fetch : Fetcher)
    (hexist : (getPlaylistGroupByIdOrSlug g.id env).isSome = true)
    (hsucc : (savePlaylistGroup g env fetch).success = true) :
    ∀ key : String,
      ((lookupKV ((savePlaylistGroup g env fetch).env).playlists key).isSome = true ∧
        startsWithStr key (keyByGroup ++ g.id ++ ":") = true) ↔
      ∃ vp ∈ groupValidated g env fetch, key = keyByGroup ++ g.id ++ ":" ++ vp.1 := by
  obtain ⟨_, henv⟩ := savePlaylistGroup_success_parts g env fetch hsucc
  intro key
  rw [henv, applyOps_playlists_lookup]
  have hprune : savePruneOps g env =
      (keysWithPre env.playlists (keyByGroup ++ g.id ++ ":")).map StoreOp.delP := by
    unfold savePruneOps
    cases hgg : getPlaylistGroupByIdOrSlug g.id env with
    | none => rw [hgg] at hexist; cases hexist
    | some _ => rfl
  constructor
  · rintro ⟨hsome, hpre⟩
    cases hl : lastPOp (saveOps g env fetch) key with
    | none =>
      exfalso
      rw [hl] at hsome
      have hmem : key ∈ env.playlists.map Prod.fst :=
        (lookupKV_isSome_iff_mem env.playlists key).mp hsome
      have hkey : key ∈ keysWithPre env.playlists (keyByGroup ++ g.id ++ ":") :=
        (mem_keysWithPre env.playlists _ key).mpr ⟨hmem, hpre⟩
      have hdel : StoreOp.delP key ∈ saveOps g env fetch := by
        unfold saveOps
        refine List.mem_append.mpr (Or.inl (List.mem_append.mpr (Or.inr ?_)))
        rw [hprune]
        exact List.mem_map.mpr ⟨key, hkey, rfl⟩
      have := (lastPOp_eq_none_iff (saveOps g env fetch) key).mp hl (StoreOp.delP key) hdel
      simp [touchesP] at this
    | some r =>
      cases r with
      | none =>
        rw [hl] at hsome
        cases hsome
      | some v =>
        obtain ⟨vp, hvp, hkey⟩ :=
          putP_mem_saveOps_cases g env fetch key v
            (putP_of_lastPOp_some (saveOps g env fetch) key v hl)
        rcases hkey with hkey | hkey | hkey
        · exfalso
          rw [hkey] at hpre
          rw [playlistId_key_not_under_memberPre g.id vp.1] at hpre
          cases hpre
        · exfalso
          rw [hkey] at hpre
          rw [playlistSlug_key_not_under_memberPre g.id vp.2.slug] at hpre
          cases hpre
        · exact ⟨vp, hvp, hkey⟩
  · rintro ⟨vp, hvp, rfl⟩
    have hput := member_put_mem_memberOps g env fetch vp hvp
    have htouch : touchesP (StoreOp.putP (keyByGroup ++ g.id ++ ":" ++ vp.1) (.text vp.1))
        (keyByGroup ++ g.id ++ ":" ++ vp.1) = true := by
      simp [touchesP]
    have hnotnone : lastPOp (saveMemberOps g env fetch)
        (keyByGroup ++ g.id ++ ":" ++ vp.1) ≠ none := by
      intro hn
      have := (lastPOp_eq_none_iff _ _).mp hn _ hput
      rw [htouch] at this
      cases this
    have hmem := lastPOp_no_del (saveMemberOps g env fetch)
      (keyByGroup ++ g.id ++ ":" ++ vp.1)
      (fun op hop ht => by
        obtain ⟨k, v, rfl⟩ := memberOps_all_putP g env fetch op hop
        simp only [touchesP, beq_iff_eq] at ht
        exact ⟨v, by rw [ht]⟩)
    rcases hmem with hn | ⟨v, hv⟩
    · exact absurd hn hnotnone
    · have hfull : lastPOp (saveOps g env fetch) (keyByGroup ++ g.id ++ ":" ++ vp.1) =
          some (some v) := by
        unfold saveOps
        rw [lastPOp_append]
        rw [hv]
      rw [hfull]
      constructor
      · rfl
      · have hassoc : keyByGroup ++ g.id ++ ":" ++ vp.1 =
            (keyByGroup ++ g.id ++ ":") ++ vp.1 := rfl
        rw [hassoc]
        exact startsWithStr_append _ _

end DP1

namespace DP1

theorem lookup_after_save_isSome_of_memberPut (g : PlaylistGroup) (env : Env)
    (fetch : Fetcher) (key : String)
    (hput : ∃ v, StoreOp.putP key v ∈ saveMemberOps g env fetch) :
    (lookupKV ((applyOps env (saveOps g env fetch)).playlists) key).isSome = true := by
  rw [applyOps_playlists_lookup]
  obtain ⟨v, hv⟩ := hput
  have hnn : lastPOp (saveMemberOps g env fetch) key ≠ none := by
    intro hn
    have := (lastPOp_eq_none_iff _ _).mp hn _ hv
    simp [touchesP] at this
  have hnd := lastPOp_no_del (saveMemberOps g env fetch) key
    (fun op hop ht => by
      obtain ⟨k, w, rfl⟩ := memberOps_all_putP g env fetch op hop
      simp only [touchesP, beq_iff_eq] at ht
      exact ⟨w, by rw [ht]⟩)
  rcases hnd with hn | ⟨w, hw⟩
  · exact absurd hn hnn
  · unfold saveOps
    rw [lastPOp_append, hw]
    rfl

/-- Claim C10: for every successfully validated external reference of a
successful group save, the batch also writes the fetched playlist record
under its ID key and a slug pointer under its slug key, and after the save
the playlist store holds a value under both keys whatever was stored there
before (`putKV` replaces the previous value of the key). -/
theorem savePlaylistGroup_persists_external (g : PlaylistGroup) (env : Env)
    (fetch : Fetcher) (url : String) (p : Playlist)
    (hmem : url ∈ g.playlists)
    (hhttp : (startsWithStr url "http://" || startsWithStr url "https://") = true)
    (hnotself : isSelfHostedUrl url env.selfHostedDomains = false)
    (hfetch : fetch url = some p)
    (hsucc : (savePlaylistGroup g env fetch).success = true) :
    StoreOp.putP (keyPlaylistId ++ p.id) (.playlist p) ∈
      (savePlaylistGroup g env fetch).ops ∧
    StoreOp.putP (keyPlaylistSlug ++ p.slug) (.text p.id) ∈
      (savePlaylistGroup g env fetch).ops ∧
    (lookupKV ((savePlaylistGroup g env fetch).env).playlists
      (keyPlaylistId ++ p.id)).isSome = true ∧
    (lookupKV ((savePlaylistGroup g env fetch).env).playlists
      (keyPlaylistSlug ++ p.slug)).isSome = true := by
  obtain ⟨hops, henv⟩ := savePlaylistGroup_success_parts g env fetch hsucc
  have hres : resolveGroupUrl url env fetch = (some (p.id, p), [url]) := by
    unfold resolveGroupUrl fetchAndValidatePlaylist
    rw [if_pos hhttp, if_neg (by simp [hnotself])]
    simp [hfetch]
  have hvp : (p.id, p) ∈ groupValidated g env fetch := by
    unfold groupValidated groupResolved
    refine List.mem_filterMap.mpr ⟨some (p.id, p), ?_, rfl⟩
    refine List.mem_map.mpr ⟨resolveGroupUrl url env fetch, ?_, by rw [hres]⟩
    exact List.mem_map.mpr ⟨url, hmem, rfl⟩
  have hid : StoreOp.putP (keyPlaylistId ++ p.id) (.playlist p) ∈
      saveMemberOps g env fetch := by
    unfold saveMemberOps
    refine List.mem_flatten.mpr ⟨_, List.mem_map.mpr ⟨(p.id, p), hvp, rfl⟩, ?_⟩
    simp
  have hslug : StoreOp.putP (keyPlaylistSlug ++ p.slug) (.text p.id) ∈
      saveMemberOps g env fetch := by
    unfold saveMemberOps
    refine List.mem_flatten.mpr ⟨_, List.mem_map.mpr ⟨(p.id, p), hvp, rfl⟩, ?_⟩
    simp
  have hmemops : ∀ op ∈ saveMemberOps g env fetch, op ∈ saveOps g env fetch := by
    intro op hop
    unfold saveOps
    exact List.mem_append.mpr (Or.inr hop)
  refine ⟨?_, ?_, ?_, ?_⟩
  · rw [hops]
    exact hmemops _ hid
  · rw [hops]
    exact hmemops _ hslug
  · rw [henv]
    exact lookup_after_save_isSome_of_memberPut g env fetch _ ⟨_, hid⟩
  · rw [henv]
    exact lookup_after_save_isSome_of_memberPut g env fetch _ ⟨_, hslug⟩

/-- Witness for claim C10 at the concrete claim C4 scenario: the external
playlist fetched for the group is persisted under its ID key with a slug
pointer. -/
theorem savePlaylistGroup_persists_external_witness :
    c4Fetch c4UrlExt = some { id := "ext-1", slug := "ext-one" } ∧
    (savePlaylistGroup c4Group c4Env c4Fetch).success = true ∧
    StoreOp.putP (keyPlaylistId ++ "ext-1")
        (.playlist { id := "ext-1", slug := "ext-one" }) ∈
      (savePlaylistGroup c4Group c4Env c4Fetch).ops ∧
    (lookupKV ((savePlaylistGroup c4Group c4Env c4Fetch).env).playlists
      (keyPlaylistId ++ "ext-1")).isSome = true ∧
    (lookupKV ((savePlaylistGroup c4Group c4Env c4Fetch).env).playlists
      (keyPlaylistSlug ++ "ext-one")).isSome = true := by
  have hmain := savePlaylistGroup_persists_external c4Group c4Env c4Fetch c4UrlExt
    { id := "ext-1", slug := "ext-one" } (by decide) (by decide) (by decide)
    (by decide) (by decide)
  exact ⟨by decide, by decide, hmain.1, hmain.2.2.1, hmain.2.2.2⟩

end DP1

namespace DP1

/-- Store for the claim C6 counterexample: an orphaned membership-index entry
for the group ID exists (as left behind by `deletePlaylistGroup`, whose index
cleanup regex never matches the real key) but no group record does. -/
def c6BadEnv : Env :=
  { selfHostedDomains := none,
    playlists := [(keyByGroup ++ "11111111-1111-1111-1111-111111111111" ++ ":stale-id",
      .text "stale-id")],
    playlistGroups := [] }

/-- Group saved in the claim C6 counterexample. -/
def c6Group : PlaylistGroup :=
  { id := "11111111-1111-1111-1111-111111111111", slug := "grp",
    playlists := ["https://feeds.example.org/api/v1/playlists/p1"] }

/-- Fetch collaborator of the claim C6 counterexample. -/
def c6Fetch : Fetcher :=
  fun u => if u == "https://feeds.example.org/api/v1/playlists/p1"
    then some { id := "22222222-2222-2222-2222-222222222222", slug := "p-one" } else none

/-- Counterexample to claim C6 as stated: this save succeeds, yet a
pre-existing membership-index key under the group's prefix survives even
though its ID is not among the group's current validated playlists - the
pruning step only runs when a group record is found under the ID, and here
the index entry is orphaned. -/
theorem savePlaylistGroup_stale_index_survives :
    (savePlaylistGroup c6Group c6BadEnv c6Fetch).success = true ∧
    lookupKV ((savePlaylistGroup c6Group c6BadEnv c6Fetch).env).playlists
        (keyByGroup ++ "11111111-1111-1111-1111-111111111111" ++ ":stale-id") =
      some (.text "stale-id") ∧
    startsWithStr (keyByGroup ++ "11111111-1111-1111-1111-111111111111" ++ ":stale-id")
      (keyByGroup ++ c6Group.id ++ ":") = true ∧
    (groupValidated c6Group c6BadEnv c6Fetch).map Prod.fst =
      ["22222222-2222-2222-2222-222222222222"] ∧
    (keyByGroup ++ "11111111-1111-1111-1111-111111111111" ++ ":stale-id" ≠
      keyByGroup ++ c6Group.id ++ ":" ++ "22222222-2222-2222-2222-222222222222") := by
  exact ⟨by decide, by decide, by decide, by decide, by decide⟩

/-- Environment of the claim C6 witness: the group record already exists
under its ID together with a membership-index entry for a previous member. -/
def c6wEnv : Env :=
  { selfHostedDomains := none,
    playlists := [(keyByGroup ++ "11111111-1111-1111-1111-111111111111" ++
        ":33333333-3333-3333-3333-333333333333",
      .text "33333333-3333-3333-3333-333333333333")],
    playlistGroups := [(keyGroupId ++ "11111111-1111-1111-1111-111111111111",
      .group { id := "11111111-1111-1111-1111-111111111111", slug := "old", playlists := ["https://feeds.example.org/api/v1/playlists/old1"] })] }

/-- Updated group of the claim C6 witness. -/
def c6wGroup : PlaylistGroup :=
  { id := "11111111-1111-1111-1111-111111111111", slug := "new",
    playlists := ["https://feeds.example.org/api/v1/playlists/new1"] }

/-- Fetch collaborator of the claim C6 witness. -/
def c6wFetch : Fetcher :=
  fun u => if u == "https://feeds.example.org/api/v1/playlists/new1"
    then some { id := "44444444-4444-4444-4444-444444444444", slug := "new-one" } else none

/-- Witness for the amended claim C6 at a concrete update: the group record
exists, the save succeeds, and the membership-index keys afterwards are
exactly those of the current validated playlists. -/
theorem savePlaylistGroup_memberIndex_exact_witness :
    (getPlaylistGroupByIdOrSlug c6wGroup.id c6wEnv).isSome = true ∧
    (savePlaylistGroup c6wGroup c6wEnv c6wFetch).success = true ∧
    ∀ key : String,
      ((lookupKV ((savePlaylistGroup c6wGroup c6wEnv c6wFetch).env).playlists
          key).isSome = true ∧
        startsWithStr key (keyByGroup ++ c6wGroup.id ++ ":") = true) ↔
      ∃ vp ∈ groupValidated c6wGroup c6wEnv c6wFetch,
        key = keyByGroup ++ c6wGroup.id ++ ":" ++ vp.1 := by
  have h1 : (getPlaylistGroupByIdOrSlug c6wGroup.id c6wEnv).isSome = true := by decide
  have h2 : (savePlaylistGroup c6wGroup c6wEnv c6wFetch).success = true := by decide
  exact ⟨h1, h2, savePlaylistGroup_memberIndex_exact c6wGroup c6wEnv c6wFetch h1 h2⟩

end DP1

namespace DP1

theorem cappedLimit_le_100 (l : Option Nat) : cappedLimit l ≤ 100 := by
  unfold cappedLimit
  rcases l with _ | n
  · decide
  · by_cases h : n = 0
    · simp [h]
    · simp only [beq_iff_eq, h, if_false]
      split <;> omega

theorem one_le_cappedLimit (l : Option Nat) : 1 ≤ cappedLimit l := by
  unfold cappedLimit
  rcases l with _ | n
  · decide
  · by_cases h : n = 0
    · simp [h]
    · simp only [beq_iff_eq, h, if_false]
      split <;> omega

theorem one_le_groupsLimit (l : Option Nat) : 1 ≤ groupsLimit l := by
  unfold groupsLimit
  rcases l with _ | n
  · decide
  · by_cases h : n = 0
    · simp [h]
    · simp only [beq_iff_eq, h, if_false]
      omega

theorem listPage_keys_length (s : Store) (pre : String) (limit : Nat)
    (cursor : Option String) : (listPage s pre limit cursor).keys.length ≤ limit := by
  simp [listPage, List.length_take]

theorem listPage_cursor_iff (s : Store) (pre : String) (limit : Nat)
    (cursor : Option String) (hl : 1 ≤ limit) :
    (((if (listPage s pre limit cursor).listComplete then none
        else (listPage s pre limit cursor).cursor) : Option String).isSome = true ↔
      (!(listPage s pre limit cursor).listComplete) = true) ∧
    ((!(listPage s pre limit cursor).listComplete) = true ↔
      limit < (keysAfter s pre cursor).length) := by
  simp only [listPage]
  by_cases hc : (keysAfter s pre cursor).length ≤ limit
  · rw [decide_eq_true hc]
    simp
    omega
  · have hlt : limit < (keysAfter s pre cursor).length := Nat.lt_of_not_le hc
    rw [decide_eq_false hc]
    have hne : (keysAfter s pre cursor).take limit ≠ [] := by
      intro hnil
      have h0 := congrArg List.length hnil
      rw [List.length_take] at h0
      simp only [List.length_nil] at h0
      omega
    simp only [Bool.not_false, if_false]
    refine ⟨?_, ?_⟩
    · simp [List.getLast?_isSome, hne]
    · simp [hlt]

/-- Claim C9 (amended): `listAllPlaylists` and `listPlaylistsByGroupId`
enforce the hard 100-item page cap whatever limit the caller supplies, while
`listAllPlaylistGroups` only bounds its page by the uncapped caller limit
(default 1000); each of the three returns a continuation cursor exactly when
matching entries remain beyond the returned page, and no cursor when listing
is complete. -/
theorem list_pagination_amended (env : Env) (opts : ListOptions) (gid : String) :
    (listAllPlaylists env opts).items.length ≤ 100 ∧
    (listPlaylistsByGroupId gid env opts).items.length ≤ 100 ∧
    (listAllPlaylistGroups env opts).items.length ≤ groupsLimit opts.limit ∧
    ((listAllPlaylists env opts).cursor.isSome = true ↔
      (listAllPlaylists env opts).hasMore = true) ∧
    ((listPlaylistsByGroupId gid env opts).cursor.isSome = true ↔
      (listPlaylistsByGroupId gid env opts).hasMore = true) ∧
    ((listAllPlaylistGroups env opts).cursor.isSome = true ↔
      (listAllPlaylistGroups env opts).hasMore = true) ∧
    ((listAllPlaylists env opts).hasMore = true ↔
      cappedLimit opts.limit <
        (keysAfter env.playlists keyPlaylistId opts.cursor).length) ∧
    ((listPlaylistsByGroupId gid env opts).hasMore = true ↔
      cappedLimit opts.limit <
        (keysAfter env.playlists (keyByGroup ++ gid ++ ":") opts.cursor).length) ∧
    ((listAllPlaylistGroups env opts).hasMore = true ↔
      groupsLimit opts.limit <
        (keysAfter env.playlistGroups keyGroupId opts.cursor).length) := by
  have hcap100 := cappedLimit_le_100 opts.limit
  have hcap1 := one_le_cappedLimit opts.limit
  have hg1 := one_le_groupsLimit opts.limit
  have hlen1 : (listAllPlaylists env opts).items.length ≤ 100 := by
    unfold listAllPlaylists
    calc (List.filterMap _ (listPage env.playlists keyPlaylistId
          (cappedLimit opts.limit) opts.cursor).keys).length
        ≤ (listPage env.playlists keyPlaylistId
            (cappedLimit opts.limit) opts.cursor).keys.length :=
          List.length_filterMap_le _ _
      _ ≤ cappedLimit opts.limit := listPage_keys_length _ _ _ _
      _ ≤ 100 := hcap100
  have hlen2 : (listPlaylistsByGroupId gid env opts).items.length ≤ 100 := by
    unfold listPlaylistsByGroupId
    calc (List.filterMap _ (listPage env.playlists (keyByGroup ++ gid ++ ":")
          (cappedLimit opts.limit) opts.cursor).keys).length
        ≤ (listPage env.playlists (keyByGroup ++ gid ++ ":")
            (cappedLimit opts.limit) opts.cursor).keys.length :=
          List.length_filterMap_le _ _
      _ ≤ cappedLimit opts.limit := listPage_keys_length _ _ _ _
      _ ≤ 100 := hcap100
  have hlen3 : (listAllPlaylistGroups env opts).items.length ≤ groupsLimit opts.limit := by
    unfold listAllPlaylistGroups
    calc (List.filterMap _ (listPage env.playlistGroups keyGroupId
          (groupsLimit opts.limit) opts.cursor).keys).length
        ≤ (listPage env.playlistGroups keyGroupId
            (groupsLimit opts.limit) opts.cursor).keys.length :=
          List.length_filterMap_le _ _
      _ ≤ groupsLimit opts.limit := listPage_keys_length _ _ _ _
  have h1 := listPage_cursor_iff env.playlists keyPlaylistId
    (cappedLimit opts.limit) opts.cursor hcap1
  have h2 := listPage_cursor_iff env.playlists (keyByGroup ++ gid ++ ":")
    (cappedLimit opts.limit) opts.cursor hcap1
  have h3 := listPage_cursor_iff env.playlistGroups keyGroupId
    (groupsLimit opts.limit) opts.cursor hg1
  exact ⟨hlen1, hlen2, hlen3, h1.1, h2.1, h3.1,
    ((listPage_cursor_iff _ _ _ _ hcap1).2), ((listPage_cursor_iff _ _ _ _ hcap1).2),
    ((listPage_cursor_iff _ _ _ _ hg1).2)⟩

end DP1


namespace DP1

/-- 101 distinct group-record keys in ascending order, for the claim C9
counterexample. -/
def c9Keys : List String :=
  ["playlist-group:id:000", "playlist-group:id:001", "playlist-group:id:002", "playlist-group:id:003", "playlist-group:id:004", "playlist-group:id:005", "playlist-group:id:006", "playlist-group:id:007", "playlist-group:id:008", "playlist-group:id:009", "playlist-group:id:010", "playlist-group:id:011", "playlist-group:id:012", "playlist-group:id:013", "playlist-group:id:014", "playlist-group:id:015", "playlist-group:id:016", "playlist-group:id:017", "playlist-group:id:018", "playlist-group:id:019", "playlist-group:id:020", "playlist-group:id:021", "playlist-group:id:022", "playlist-group:id:023", "playlist-group:id:024", "playlist-group:id:025", "playlist-group:id:026", "playlist-group:id:027", "playlist-group:id:028", "playlist-group:id:029", "playlist-group:id:030", "playlist-group:id:031", "playlist-group:id:032", "playlist-group:id:033", "playlist-group:id:034", "playlist-group:id:035", "playlist-group:id:036", "playlist-group:id:037", "playlist-group:id:038", "playlist-group:id:039", "playlist-group:id:040", "playlist-group:id:041", "playlist-group:id:042", "playlist-group:id:043", "playlist-group:id:044", "playlist-group:id:045", "playlist-group:id:046", "playlist-group:id:047", "playlist-group:id:048", "playlist-group:id:049", "playlist-group:id:050", "playlist-group:id:051", "playlist-group:id:052", "playlist-group:id:053", "playlist-group:id:054", "playlist-group:id:055", "playlist-group:id:056", "playlist-group:id:057", "playlist-group:id:058", "playlist-group:id:059", "playlist-group:id:060", "playlist-group:id:061", "playlist-group:id:062", "playlist-group:id:063", "playlist-group:id:064", "playlist-group:id:065", "playlist-group:id:066", "playlist-group:id:067", "playlist-group:id:068", "playlist-group:id:069", "playlist-group:id:070", "playlist-group:id:071", "playlist-group:id:072", "playlist-group:id:073", "playlist-group:id:074", "playlist-group:id:075", "playlist-group:id:076", "playlist-group:id:077", "playlist-group:id:078", "playlist-group:id:079", "playlist-group:id:080", "playlist-group:id:081", "playlist-group:id:082", "playlist-group:id:083", "playlist-group:id:084", "playlist-group:id:085", "playlist-group:id:086", "playlist-group:id:087", "playlist-group:id:088", "playlist-group:id:089", "playlist-group:id:090", "playlist-group:id:091", "playlist-group:id:092", "playlist-group:id:093", "playlist-group:id:094", "playlist-group:id:095", "playlist-group:id:096", "playlist-group:id:097", "playlist-group:id:098", "playlist-group:id:099", "playlist-group:id:100"]

/-- Store with 101 playlist-group records, for the claim C9 counterexample. -/
def c9Env : Env :=
  { selfHostedDomains := none,
    playlists := [],
    playlistGroups := c9Keys.map (fun k =>
      (k, KVValue.group { id := k, slug := "s", playlists := [] })) }

/-- Strict version of the string order, for linear duplicate-freedom
checks. -/
def strlt (a b : String) : Prop := strle a b ∧ a ≠ b

instance : DecidableRel strlt := fun a b =>
  inferInstanceAs (Decidable (strle a b ∧ a ≠ b))

instance : IsTrans String strlt :=
  ⟨fun a b c h1 h2 =>
    ⟨charListLe_trans a.data b.data c.data h1.1 h2.1,
     fun heq => h1.2 (String.ext (charListLe_antisymm a.data b.data h1.1 (heq ▸ h2.1)))⟩⟩

theorem nodup_of_chain_strlt (l : List String) (h : List.Chain' strlt l) : l.Nodup :=
  (List.chain'_iff_pairwise.mp h).imp (fun hab => hab.2)

/-- Adjacent strict-order check, reducible by evaluation. -/
def chainStrlt : List String → Bool
  | [] => true
  | [_] => true
  | a :: b :: t => decide (strlt a b) && chainStrlt (b :: t)

theorem chain'_of_chainStrlt : ∀ l : List String, chainStrlt l = true → List.Chain' strlt l
  | [] => fun _ => List.chain'_nil
  | [_] => fun _ => List.chain'_singleton _
  | a :: b :: t => fun h => by
    simp only [chainStrlt, Bool.and_eq_true, decide_eq_true_eq] at h
    exact List.Chain'.cons h.1 (chain'_of_chainStrlt (b :: t) (by
      simpa [chainStrlt] using h.2))

theorem lookupKV_map_self (g : String → KVValue) :
    ∀ (l : List String) (k : String), k ∈ l →
      lookupKV (l.map (fun k => (k, g k))) k = some (g k) := by
  intro l
  induction l with
  | nil => intro k hk; cases hk
  | cons a t ih =>
    intro k hk
    simp only [List.map_cons, lookupKV]
    by_cases hka : k = a
    · simp [hka]
    · rw [if_neg hka]
      rcases List.mem_cons.mp hk with h | h
      · exact absurd h hka
      · exact ih k h

theorem length_filterMap_of_isSome {α β : Type} (f : α → Option β) :
    ∀ l : List α, (∀ a ∈ l, (f a).isSome = true) → (l.filterMap f).length = l.length := by
  intro l
  induction l with
  | nil => intro _; rfl
  | cons a t ih =>
    intro h
    have ha := h a (List.mem_cons_self a t)
    cases hfa : f a with
    | none => rw [hfa] at ha; cases ha
    | some b =>
      rw [List.filterMap_cons, hfa]
      simp only [List.length_cons]
      rw [ih (fun x hx => h x (List.mem_cons_of_mem a hx))]

set_option maxHeartbeats 3200000 in
set_option maxRecDepth 16000 in
/-- Counterexample to claim C9 as stated: `listAllPlaylistGroups` enforces no
100-item page cap - with a caller limit of 101 and 101 stored groups it
returns a page of 101 items. -/
theorem listAllPlaylistGroups_no_cap :
    (listAllPlaylistGroups c9Env { limit := some 101, cursor := none }).items.length
      = 101 ∧ ¬ (101 ≤ 100) := by
  refine ⟨?_, by decide⟩
  have hmapfst : c9Env.playlistGroups.map Prod.fst = c9Keys := by
    have hstore : c9Env.playlistGroups = c9Keys.map (fun k =>
        (k, KVValue.group { id := k, slug := "s", playlists := [] })) := rfl
    rw [hstore, List.map_map]
    have hcomp : (Prod.fst ∘ fun k : String =>
        (k, KVValue.group { id := k, slug := "s", playlists := [] })) = id := rfl
    rw [hcomp, List.map_id]
  have hfilter : c9Keys.filter (fun k => startsWithStr k keyGroupId) = c9Keys :=
    List.filter_eq_self.mpr (by decide)
  have hnodup : c9Keys.Nodup :=
    nodup_of_chain_strlt c9Keys (chain'_of_chainStrlt c9Keys (by decide))
  have hsorted : sortStrings c9Keys = c9Keys := by decide
  have hkwp : keysWithPre c9Env.playlistGroups keyGroupId = c9Keys := by
    unfold keysWithPre
    rw [hmapfst, hfilter, List.dedup_eq_self.mpr hnodup, hsorted]
  have hlen : c9Keys.length = 101 := by decide
  have hlook : ∀ k ∈ c9Keys,
      lookupKV c9Env.playlistGroups k =
        some (KVValue.group { id := k, slug := "s", playlists := [] }) := by
    intro k hk
    exact lookupKV_map_self _ c9Keys k hk
  simp only [listAllPlaylistGroups, listPage, keysAfter]
  rw [hkwp]
  have hglimit : groupsLimit (some 101) = 101 := by decide
  rw [hglimit, ← hlen, List.take_length]
  refine Eq.trans (length_filterMap_of_isSome _ c9Keys ?_) hlen
  intro k hk
  rw [hlook k hk]
  rfl

end DP1

